import Mathlib

/-!
# Verification of the written-resolution-processor dispatch engine

Shallow embedding of the rate-limited multi-key batch dispatch engine:
`src/services/rateLimiter.ts`, `src/services/gemini.ts` and
`src/utils/retry.ts`.  JavaScript numbers (floats and millisecond
timestamps) are modelled as exact rationals `ℚ`; JS `Map`s and the
localStorage persistence collaborator are modelled as functions
`String → Option α`; fallible code returns `Except`.

The numeric configuration constants imported from the repository's
constants module (`TIER_LIMITS`, `RATE_LIMIT_CONFIG`, `MAX_DOCS_PER_BATCH`,
the token estimates and `BATCH_QUALITY_THRESHOLD`) are not present under
`src/`, so they are kept abstract as parameters of the embedding; the
theorems quantify over them.
-/

namespace WRP

/-- Functional update of a string-keyed map (JS `Map.set` / storage write). -/
def setKey {α : Type} (m : String → Option α) (k : String) (v : α) : String → Option α :=
  fun j => if j = k then some v else m j

@[simp] theorem setKey_same {α : Type} (m : String → Option α) (k : String) (v : α) :
    setKey m k v k = some v := by
  simp [setKey]

theorem setKey_ne {α : Type} (m : String → Option α) (k j : String) (v : α) (h : j ≠ k) :
    setKey m k v j = m j := by
  simp [setKey, h]

/-! ## Rate limiter data model (`src/types`, `src/services/rateLimiter.ts`) -/

/-- `ApiTier` from `src/types`: Gemini API tier levels. -/
inductive ApiTier : Type
  | free
  | tier1
  | tier2
deriving DecidableEq, Repr

/-- `TierLimits` from `src/types`: requests/minute and requests/day
(`none` = unlimited).  The `tpm` field is never read by the limiter and
is omitted. -/
structure TierLimits : Type where
  rpm : ℚ
  rpd : Option ℕ
deriving DecidableEq, Repr

/-- `ApiKeyEntry` from `src/types` (the `label`/`addedAt` display fields are
never read by the dispatch engine and are omitted). -/
structure ApiKeyEntry : Type where
  id : String
  key : String
  tier : ApiTier
deriving DecidableEq, Repr

/-- `TokenBucketState` from `src/types`. -/
structure TokenBucketState : Type where
  tokens : ℚ
  maxTokens : ℚ
  lastRefill : ℚ
deriving DecidableEq, Repr

/-- `DailyUsage` from `src/types`. -/
structure DailyUsage : Type where
  count : ℕ
  resetAt : ℚ
deriving DecidableEq, Repr

/-- The persisted shape of a token bucket (`saveBucketState` stores only
`tokens` and `lastRefill`).  An absent or corrupt record is `none`. -/
structure SavedBucket : Type where
  tokens : ℚ
  lastRefill : ℚ
deriving DecidableEq, Repr

/-- Environment of the limiter: the tier table (`TIER_LIMITS`, whose values
live in the constants module absent from `src/`) and `getNextMidnightPT`,
whose wall-clock/timezone arithmetic is external `Date` library code and is
kept abstract as a function of the current time. -/
structure RLEnv : Type where
  tierLimits : ApiTier → TierLimits
  nextMidnightPT : ℚ → ℚ

/-- The mutable state of a `RateLimiter` instance together with the
localStorage persistence collaborator (`storedBuckets`/`storedDaily`). -/
structure RLState : Type where
  keys : List ApiKeyEntry
  buckets : String → Option TokenBucketState
  daily : String → Option DailyUsage
  storedBuckets : String → Option SavedBucket
  storedDaily : String → Option DailyUsage

/-- `getRefillRate` from `rateLimiter.ts`: tokens per millisecond. -/
def getRefillRate (rpm : ℚ) : ℚ :=
  rpm / 60000

/-- `refillBucket` from `rateLimiter.ts` (the tier is resolved to its `rpm`
at call sites). -/
def refillBucket (bucket : TokenBucketState) (rpm : ℚ) (now : ℚ) : TokenBucketState :=
  let elapsed := now - bucket.lastRefill
  let refill := elapsed * getRefillRate rpm
  { tokens := min bucket.maxTokens (bucket.tokens + refill)
    maxTokens := bucket.maxTokens
    lastRefill := now }

/-- `loadBucketState` from `rateLimiter.ts`: restore a bucket from
persistence, clamping the token count to the tier's `rpm`; an absent or
corrupt record yields the tier default. -/
def loadBucketState (stored : Option SavedBucket) (rpm : ℚ) (now : ℚ) : TokenBucketState :=
  match stored with
  | none => { tokens := rpm, maxTokens := rpm, lastRefill := now }
  | some s => { tokens := min s.tokens rpm, maxTokens := rpm, lastRefill := s.lastRefill }

/-- `loadDailyUsage` from `rateLimiter.ts`: an absent record or one whose
reset time has passed yields a fresh record. -/
def loadDailyUsage (env : RLEnv) (stored : Option DailyUsage) (now : ℚ) : DailyUsage :=
  match stored with
  | none => { count := 0, resetAt := env.nextMidnightPT now }
  | some u =>
    if u.resetAt ≤ now then { count := 0, resetAt := env.nextMidnightPT now } else u

/-- `saveBucketState` from `rateLimiter.ts`. -/
def saveBucketState (st : RLState) (keyId : String) (b : TokenBucketState) : RLState :=
  { st with storedBuckets := setKey st.storedBuckets keyId ⟨b.tokens, b.lastRefill⟩ }

/-- `saveDailyUsage` from `rateLimiter.ts`. -/
def saveDailyUsage (st : RLState) (keyId : String) (u : DailyUsage) : RLState :=
  { st with storedDaily := setKey st.storedDaily keyId u }

/-- The constructor / `initializeFromStorage` from `rateLimiter.ts`: for each
key, load the bucket from storage, refill it once, and load daily usage. -/
def initializeKey (env : RLEnv) (st : RLState) (k : ApiKeyEntry) (now : ℚ) : RLState :=
  let bucket := loadBucketState (st.storedBuckets k.id) (env.tierLimits k.tier).rpm now
  let bucket := refillBucket bucket (env.tierLimits k.tier).rpm now
  let st := { st with buckets := setKey st.buckets k.id bucket }
  { st with daily := setKey st.daily k.id (loadDailyUsage env (st.storedDaily k.id) now) }

/-- `new RateLimiter(keys)` from `rateLimiter.ts`, starting from the given
persistence contents and empty in-memory maps. -/
def mkRateLimiter (env : RLEnv) (keys : List ApiKeyEntry)
    (storedBuckets : String → Option SavedBucket)
    (storedDaily : String → Option DailyUsage) (now : ℚ) : RLState :=
  keys.foldl (fun st k => initializeKey env st k now)
    { keys := keys, buckets := fun _ => none, daily := fun _ => none
      storedBuckets := storedBuckets, storedDaily := storedDaily }

/-- `checkDailyLimit` from `rateLimiter.ts`: returns whether the key has
remaining daily quota; resets the stored count when the reset time has
passed; memoizes a storage load when the in-memory entry is missing. -/
def checkDailyLimit (env : RLEnv) (st : RLState) (keyId : String) (tier : ApiTier)
    (now : ℚ) : Bool × RLState :=
  match (env.tierLimits tier).rpd with
  | none => (true, st)
  | some rpd =>
    let usage :=
      match st.daily keyId with
      | some u => u
      | none => loadDailyUsage env (st.storedDaily keyId) now
    let st := { st with daily := setKey st.daily keyId usage }
    if usage.resetAt ≤ now then
      let fresh : DailyUsage := { count := 0, resetAt := env.nextMidnightPT now }
      let st := { st with daily := setKey st.daily keyId fresh }
      (decide (0 < rpd), saveDailyUsage st keyId fresh)
    else
      (decide (usage.count < rpd), st)

/-- Loop body accumulator pass of `getBestKey` from `rateLimiter.ts`. -/
def getBestKeyAux (env : RLEnv) (now : ℚ) :
    List ApiKeyEntry → RLState → Option ApiKeyEntry → ℚ → Option ApiKeyEntry × RLState
  | [], st, best, _ => (best, st)
  | k :: rest, st, best, maxT =>
    match st.buckets k.id with
    | none => getBestKeyAux env now rest st best maxT
    | some bucket =>
      let b := refillBucket bucket (env.tierLimits k.tier).rpm now
      let st := { st with buckets := setKey st.buckets k.id b }
      let dc := checkDailyLimit env st k.id k.tier now
      if dc.1 then
        if 1 ≤ b.tokens ∧ maxT < b.tokens then
          getBestKeyAux env now rest dc.2 (some k) b.tokens
        else
          getBestKeyAux env now rest dc.2 best maxT
      else
        getBestKeyAux env now rest dc.2 best maxT

/-- `getBestKey` from `rateLimiter.ts`: refill every bucket, skip keys with
exhausted daily quota, and return the key with the strictly greatest token
count among those with at least one token. -/
def getBestKey (env : RLEnv) (st : RLState) (now : ℚ) : Option ApiKeyEntry × RLState :=
  getBestKeyAux env now st.keys st none 0

/-- `consumeRequest` from `rateLimiter.ts`. -/
def consumeRequest (env : RLEnv) (st : RLState) (keyId : String) (now : ℚ) :
    Bool × RLState :=
  match st.keys.find? (fun k => k.id = keyId) with
  | none => (false, st)
  | some key =>
    match st.buckets keyId with
    | none => (false, st)
    | some bucket =>
      let b := refillBucket bucket (env.tierLimits key.tier).rpm now
      let st := { st with buckets := setKey st.buckets keyId b }
      if b.tokens < 1 then (false, st)
      else
        let b2 : TokenBucketState :=
          { tokens := b.tokens - 1, maxTokens := b.maxTokens, lastRefill := b.lastRefill }
        let st := { st with buckets := setKey st.buckets keyId b2 }
        let st := saveBucketState st keyId b2
        let usage :=
          match st.daily keyId with
          | some u => u
          | none => { count := 0, resetAt := env.nextMidnightPT now }
        let u2 : DailyUsage := { count := usage.count + 1, resetAt := usage.resetAt }
        let st := { st with daily := setKey st.daily keyId u2 }
        (true, saveDailyUsage st keyId u2)

/-- `markExhausted` from `rateLimiter.ts`: force the bucket to zero tokens. -/
def markExhausted (st : RLState) (keyId : String) (now : ℚ) : RLState :=
  match st.buckets keyId with
  | none => st
  | some bucket =>
    let b : TokenBucketState :=
      { tokens := 0, maxTokens := bucket.maxTokens, lastRefill := now }
    let st := { st with buckets := setKey st.buckets keyId b }
    saveBucketState st keyId b

/-- Loop of `getWaitTime` from `rateLimiter.ts`; `minWait = none` models the
initial `Infinity`.  An early `return 0` stops the scan. -/
def getWaitTimeAux (env : RLEnv) (now : ℚ) :
    List ApiKeyEntry → RLState → Option ℚ → ℚ × RLState
  | [], st, minWait =>
    match minWait with
    | none => (60000, st)
    | some w => ((⌈w⌉ : ℤ), st)
  | k :: rest, st, minWait =>
    match st.buckets k.id with
    | none => getWaitTimeAux env now rest st minWait
    | some bucket =>
      let dc := checkDailyLimit env st k.id k.tier now
      let st := dc.2
      if dc.1 then
        let b := refillBucket bucket (env.tierLimits k.tier).rpm now
        let st := { st with buckets := setKey st.buckets k.id b }
        if 1 ≤ b.tokens then (0, st)
        else
          let waitMs := (1 - b.tokens) / getRefillRate (env.tierLimits k.tier).rpm
          let m2 :=
            match minWait with
            | none => some waitMs
            | some w => some (min w waitMs)
          getWaitTimeAux env now rest st m2
      else
        getWaitTimeAux env now rest st minWait

/-- `getWaitTime` from `rateLimiter.ts`. -/
def getWaitTime (env : RLEnv) (st : RLState) (now : ℚ) : ℚ × RLState :=
  getWaitTimeAux env now st.keys st none

/-- `KeyStatus` from `rateLimiter.ts` (UI display record). -/
structure KeyStatus : Type where
  keyId : String
  tier : ApiTier
  availableTokens : ℤ
  maxTokens : ℚ
  dailyUsed : ℕ
  dailyLimit : Option ℕ
  isAvailable : Bool
  isExhausted : Bool
deriving DecidableEq, Repr

/-- One iteration of `getKeyStatuses` from `rateLimiter.ts`.  Note that the
daily usage is read directly from the in-memory map: no reset and no
storage load happens here. -/
def keyStatusOf (env : RLEnv) (st : RLState) (k : ApiKeyEntry) (now : ℚ) :
    KeyStatus × RLState :=
  let limits := env.tierLimits k.tier
  let bucket := st.buckets k.id
  let st :=
    match bucket with
    | none => st
    | some b =>
      { st with buckets := setKey st.buckets k.id (refillBucket b limits.rpm now) }
  let refilled :=
    match bucket with
    | none => none
    | some b => some (refillBucket b limits.rpm now)
  let availableTokens : ℤ :=
    match refilled with
    | none => 0
    | some b => ⌊b.tokens⌋
  let dailyUsed :=
    match st.daily k.id with
    | none => 0
    | some u => u.count
  let hasDailyQuota :=
    match limits.rpd with
    | none => true
    | some rpd => decide (dailyUsed < rpd)
  let bucketBelowOne :=
    match refilled with
    | none => false
    | some b => decide (b.tokens < 1)
  ({ keyId := k.id
     tier := k.tier
     availableTokens := availableTokens
     maxTokens := limits.rpm
     dailyUsed := dailyUsed
     dailyLimit := limits.rpd
     isAvailable := decide (1 ≤ availableTokens) && hasDailyQuota
     isExhausted := !hasDailyQuota || bucketBelowOne }, st)

/-- Loop of `getKeyStatuses` from `rateLimiter.ts` (refills each bucket as a
side effect). -/
def getKeyStatusesAux (env : RLEnv) (now : ℚ) :
    List ApiKeyEntry → RLState → List KeyStatus × RLState
  | [], st => ([], st)
  | k :: rest, st =>
    let r := keyStatusOf env st k now
    let rest2 := getKeyStatusesAux env now rest r.2
    (r.1 :: rest2.1, rest2.2)

/-- `getKeyStatuses` from `rateLimiter.ts`. -/
def getKeyStatuses (env : RLEnv) (st : RLState) (now : ℚ) : List KeyStatus × RLState :=
  getKeyStatusesAux env now st.keys st

/-! ## Concrete limiter instances used by witnesses and counterexamples -/

/-- A concrete environment: every tier allows 15 requests/minute and 250
requests/day, and the next PT midnight is modelled as a day away. -/
def env0 : RLEnv :=
  { tierLimits := fun _ => { rpm := 15, rpd := some 250 }
    nextMidnightPT := fun t => t + 86400000 }

/-- A concrete credential. -/
def key0 : ApiKeyEntry :=
  { id := "k", key := "AIzaExample", tier := ApiTier.free }

/-- A concrete limiter state: one key whose daily usage window expired at
time 50 with 5 recorded requests and a full bucket last refilled at 100. -/
def st0 : RLState :=
  { keys := [key0]
    buckets := fun j => if j = "k" then some ⟨15, 15, 100⟩ else none
    daily := fun j => if j = "k" then some ⟨5, 50⟩ else none
    storedBuckets := fun _ => none
    storedDaily := fun _ => none }

/-- C2, counterexample: at time `100 ≥ resetAt = 50` the next status read
(`getKeyStatuses`) still reports the stale count 5 (not 0), and
`consumeRequest` increments the stale count to 6 leaving `resetAt = 50 ≤ now`
— neither performs the daily reset the claim asserts. -/
theorem C2_cex_stale_daily_report :
    (50 : ℚ) ≤ 100 ∧
    (getKeyStatuses env0 st0 100).1.map KeyStatus.dailyUsed = [5] ∧
    (consumeRequest env0 st0 "k" 100).1 = true ∧
    (consumeRequest env0 st0 "k" 100).2.daily "k" = some ⟨6, 50⟩ := by
  refine ⟨by norm_num, ?_, ?_⟩
  · simp [getKeyStatuses, getKeyStatusesAux, keyStatusOf, env0, st0, key0, refillBucket,
      getRefillRate, setKey]
  · simp [consumeRequest, env0, st0, key0, refillBucket, getRefillRate, setKey,
      saveDailyUsage, saveBucketState, List.find?]

/-- C2 (amended): the daily reset is performed by `checkDailyLimit` (invoked
by `getBestKey` and `getWaitTime`), not by `getKeyStatuses` or
`consumeRequest`: for a tier with a daily limit, if `resetAt ≤ now` then
after `checkDailyLimit` the in-memory and persisted usage have `count = 0`
and a `resetAt` equal to the next PT midnight, which is strictly greater
than `now`. -/
theorem C2_daily_reset_on_limit_check (env : RLEnv) (st : RLState) (keyId : String)
    (tier : ApiTier) (now : ℚ) (usage : DailyUsage) (rpd : ℕ)
    (hmid : ∀ t, t < env.nextMidnightPT t)
    (hus : st.daily keyId = some usage)
    (hreset : usage.resetAt ≤ now)
    (hrpd : (env.tierLimits tier).rpd = some rpd) :
    (checkDailyLimit env st keyId tier now).2.daily keyId =
      some ⟨0, env.nextMidnightPT now⟩ ∧
    (checkDailyLimit env st keyId tier now).2.storedDaily keyId =
      some ⟨0, env.nextMidnightPT now⟩ ∧
    now < env.nextMidnightPT now ∧
    (checkDailyLimit env st keyId tier now).1 = decide (0 < rpd) := by
  simp only [checkDailyLimit, hrpd, hus, if_pos hreset, saveDailyUsage, setKey_same]
  exact ⟨trivial, trivial, hmid now, trivial⟩

/-- Witness for `C2_daily_reset_on_limit_check` at the concrete instance. -/
theorem C2_daily_reset_on_limit_check_witness :
    (checkDailyLimit env0 st0 "k" ApiTier.free 100).2.daily "k" =
      some ⟨0, env0.nextMidnightPT 100⟩ ∧
    (checkDailyLimit env0 st0 "k" ApiTier.free 100).2.storedDaily "k" =
      some ⟨0, env0.nextMidnightPT 100⟩ ∧
    (100 : ℚ) < env0.nextMidnightPT 100 ∧
    (checkDailyLimit env0 st0 "k" ApiTier.free 100).1 = decide (0 < 250) :=
  C2_daily_reset_on_limit_check env0 st0 "k" ApiTier.free 100 ⟨5, 50⟩ 250
    (fun t => by simp only [env0]; linarith)
    (by simp [st0]) (by norm_num) (by simp [env0])

/-- C6: `consumeRequest` on a known credential refills the bucket, then if at
least one token is available it deducts exactly one token, persists the
bucket, increments and persists the daily usage, and returns `true`;
otherwise it returns `false`, leaving both the in-memory and the persisted
daily usage untouched (only the refill is kept). -/
theorem C6_consumeRequest_spec (env : RLEnv) (st : RLState) (keyId : String)
    (now : ℚ) (key : ApiKeyEntry) (bucket : TokenBucketState)
    (hfind : st.keys.find? (fun k => k.id = keyId) = some key)
    (hbucket : st.buckets keyId = some bucket) :
    (1 ≤ (refillBucket bucket (env.tierLimits key.tier).rpm now).tokens →
      (consumeRequest env st keyId now).1 = true ∧
      (consumeRequest env st keyId now).2.buckets keyId =
        some { tokens := (refillBucket bucket (env.tierLimits key.tier).rpm now).tokens - 1
               maxTokens := bucket.maxTokens
               lastRefill := now } ∧
      (consumeRequest env st keyId now).2.storedBuckets keyId =
        some ⟨(refillBucket bucket (env.tierLimits key.tier).rpm now).tokens - 1, now⟩ ∧
      (consumeRequest env st keyId now).2.daily keyId =
        some { count := ((st.daily keyId).getD ⟨0, env.nextMidnightPT now⟩).count + 1
               resetAt := ((st.daily keyId).getD ⟨0, env.nextMidnightPT now⟩).resetAt } ∧
      (consumeRequest env st keyId now).2.storedDaily keyId =
        some { count := ((st.daily keyId).getD ⟨0, env.nextMidnightPT now⟩).count + 1
               resetAt := ((st.daily keyId).getD ⟨0, env.nextMidnightPT now⟩).resetAt }) ∧
    ((refillBucket bucket (env.tierLimits key.tier).rpm now).tokens < 1 →
      (consumeRequest env st keyId now).1 = false ∧
      (consumeRequest env st keyId now).2.daily = st.daily ∧
      (consumeRequest env st keyId now).2.storedDaily = st.storedDaily ∧
      (consumeRequest env st keyId now).2.buckets keyId =
        some (refillBucket bucket (env.tierLimits key.tier).rpm now)) := by
  constructor
  · intro h1
    simp only [consumeRequest, hfind, hbucket]
    rw [if_neg (not_lt.mpr h1)]
    refine ⟨rfl, ?_, ?_, ?_, ?_⟩
    · simp only [saveDailyUsage, saveBucketState, setKey_same, refillBucket]
    · simp only [saveDailyUsage, saveBucketState, setKey_same, refillBucket]
    · cases hd : st.daily keyId <;>
        simp only [hd, saveDailyUsage, saveBucketState, setKey_same, Option.getD]
    · cases hd : st.daily keyId <;>
        simp only [hd, saveDailyUsage, saveBucketState, setKey_same, Option.getD]
  · intro h1
    simp only [consumeRequest, hfind, hbucket]
    rw [if_pos h1]
    exact ⟨rfl, rfl, rfl, by simp only [setKey_same]⟩

/-- Witness for `C6_consumeRequest_spec` at the concrete instance (the
bucket has 15 tokens, so the consuming branch applies). -/
theorem C6_consumeRequest_spec_witness :
    ((1 : ℚ) ≤ (refillBucket ⟨15, 15, 100⟩ (env0.tierLimits ApiTier.free).rpm 100).tokens) ∧
    ((consumeRequest env0 st0 "k" 100).1 = true ∧
      (consumeRequest env0 st0 "k" 100).2.daily "k" =
        some { count := ((st0.daily "k").getD ⟨0, env0.nextMidnightPT 100⟩).count + 1
               resetAt := ((st0.daily "k").getD ⟨0, env0.nextMidnightPT 100⟩).resetAt }) :=
  ⟨by norm_num [refillBucket, getRefillRate, env0],
   ((C6_consumeRequest_spec env0 st0 "k" 100 key0 ⟨15, 15, 100⟩
      (by simp [st0, key0, List.find?]) (by simp [st0])).1
      (by norm_num [refillBucket, getRefillRate, env0])).1,
   (((C6_consumeRequest_spec env0 st0 "k" 100 key0 ⟨15, 15, 100⟩
      (by simp [st0, key0, List.find?]) (by simp [st0])).1
      (by norm_num [refillBucket, getRefillRate, env0])).2.2.2).1⟩

/-! ## Token bucket operation traces (for the bucket invariant) -/

/-- The operations that touch a single credential's bucket: `refill` covers
the lazy refills performed by `getBestKey`, `getWaitTime` and
`getKeyStatuses`; `consume` is the bucket part of `consumeRequest`;
`markExhausted` is the quota-rejection override. -/
inductive BucketOp : Type
  | refill (now : ℚ)
  | consume (now : ℚ)
  | markExhausted (now : ℚ)
deriving DecidableEq, Repr

/-- The wall-clock time at which an operation runs. -/
def BucketOp.time : BucketOp → ℚ
  | .refill t => t
  | .consume t => t
  | .markExhausted t => t

/-- Effect of one operation on one bucket, projected out of the limiter
methods (see `consumeRequest_bucket_eq` and `markExhausted_bucket_eq`). -/
def bucketStep (rpm : ℚ) (b : TokenBucketState) : BucketOp → TokenBucketState
  | .refill t => refillBucket b rpm t
  | .consume t =>
    let r := refillBucket b rpm t
    if r.tokens < 1 then r
    else { tokens := r.tokens - 1, maxTokens := r.maxTokens, lastRefill := r.lastRefill }
  | .markExhausted t => { tokens := 0, maxTokens := b.maxTokens, lastRefill := t }

/-- `consumeRequest` transforms the named bucket exactly as
`bucketStep (.consume now)`. -/
theorem consumeRequest_bucket_eq (env : RLEnv) (st : RLState) (keyId : String)
    (now : ℚ) (key : ApiKeyEntry) (bucket : TokenBucketState)
    (hfind : st.keys.find? (fun k => k.id = keyId) = some key)
    (hbucket : st.buckets keyId = some bucket) :
    (consumeRequest env st keyId now).2.buckets keyId =
      some (bucketStep (env.tierLimits key.tier).rpm bucket (.consume now)) := by
  simp only [consumeRequest, hfind, hbucket, bucketStep]
  by_cases h : (refillBucket bucket (env.tierLimits key.tier).rpm now).tokens < 1
  · rw [if_pos h, if_pos h]
    simp only [setKey_same]
  · rw [if_neg h, if_neg h]
    simp only [saveDailyUsage, saveBucketState, setKey_same]

/-- `markExhausted` transforms the named bucket exactly as
`bucketStep (.markExhausted now)` (the rate is irrelevant). -/
theorem markExhausted_bucket_eq (rpm : ℚ) (st : RLState) (keyId : String)
    (now : ℚ) (bucket : TokenBucketState)
    (hbucket : st.buckets keyId = some bucket) :
    (markExhausted st keyId now).buckets keyId =
      some (bucketStep rpm bucket (.markExhausted now)) := by
  simp only [markExhausted, hbucket, bucketStep, saveBucketState, setKey_same]

/-- The bucket invariant of the spec: `0 ≤ tokens ≤ maxTokens`. -/
def BucketInv (b : TokenBucketState) : Prop :=
  0 ≤ b.tokens ∧ b.tokens ≤ b.maxTokens

/-- Times along a trace are non-decreasing starting from `t`. -/
def Chronological : ℚ → List BucketOp → Prop
  | _, [] => True
  | t, op :: rest => t ≤ op.time ∧ Chronological op.time rest

/-- All intermediate bucket states along a trace (including the start). -/
def bucketStates (rpm : ℚ) (b : TokenBucketState) : List BucketOp → List TokenBucketState
  | [] => [b]
  | op :: rest => b :: bucketStates rpm (bucketStep rpm b op) rest

theorem refillBucket_mono (b : TokenBucketState) (rpm t : ℚ)
    (hrpm : 0 ≤ rpm) (hb : BucketInv b) (hlr : b.lastRefill ≤ t) :
    b.tokens ≤ (refillBucket b rpm t).tokens := by
  obtain ⟨h0, hmax⟩ := hb
  have hΔ : 0 ≤ (t - b.lastRefill) * getRefillRate rpm := by
    apply mul_nonneg (by linarith)
    exact div_nonneg hrpm (by norm_num)
  simp only [refillBucket]
  exact le_min hmax (by linarith)

theorem refillBucket_inv (b : TokenBucketState) (rpm t : ℚ)
    (hrpm : 0 ≤ rpm) (hb : BucketInv b) (hlr : b.lastRefill ≤ t) :
    BucketInv (refillBucket b rpm t) := by
  refine ⟨le_trans hb.1 (refillBucket_mono b rpm t hrpm hb hlr), ?_⟩
  simp only [refillBucket]
  exact min_le_left _ _

theorem bucketStep_inv (b : TokenBucketState) (rpm : ℚ) (op : BucketOp)
    (hrpm : 0 ≤ rpm) (hb : BucketInv b) (hlr : b.lastRefill ≤ op.time) :
    BucketInv (bucketStep rpm b op) := by
  cases op with
  | refill t => exact refillBucket_inv b rpm t hrpm hb hlr
  | consume t =>
    have hr := refillBucket_inv b rpm t hrpm hb hlr
    simp only [bucketStep]
    by_cases h : (refillBucket b rpm t).tokens < 1
    · rw [if_pos h]; exact hr
    · rw [if_neg h]
      push_neg at h
      exact ⟨by simp only []; linarith, by simp only []; linarith [hr.2]⟩
  | markExhausted t =>
    exact ⟨le_refl 0, le_trans hb.1 hb.2⟩

theorem bucketStep_lastRefill (b : TokenBucketState) (rpm : ℚ) (op : BucketOp) :
    (bucketStep rpm b op).lastRefill = op.time := by
  cases op with
  | refill t => rfl
  | consume t =>
    simp only [bucketStep]
    by_cases h : (refillBucket b rpm t).tokens < 1
    · rw [if_pos h]; rfl
    · rw [if_neg h]; rfl
  | markExhausted t => rfl

theorem bucketStates_inv (rpm t0 : ℚ) (b : TokenBucketState) (ops : List BucketOp)
    (hrpm : 0 ≤ rpm) (hb : BucketInv b) (hlr : b.lastRefill ≤ t0)
    (hchr : Chronological t0 ops) :
    ∀ st ∈ bucketStates rpm b ops, BucketInv st := by
  induction ops generalizing b t0 with
  | nil =>
    intro st hst
    simp only [bucketStates, List.mem_singleton] at hst
    exact hst ▸ hb
  | cons op rest ih =>
    intro st hst
    obtain ⟨ht, hrest⟩ := hchr
    simp only [bucketStates, List.mem_cons] at hst
    rcases hst with h | h
    · exact h ▸ hb
    · exact ih op.time (bucketStep rpm b op)
        (bucketStep_inv b rpm op hrpm hb (le_trans hlr ht))
        (le_of_eq (bucketStep_lastRefill b rpm op)) hrest st h

/-- Restored-from-persistence bucket (after the constructor's immediate
refill, as in `initializeFromStorage`). -/
theorem loadBucketState_inv (stored : Option SavedBucket) (rpm t0 : ℚ)
    (hrpm : 0 ≤ rpm)
    (hstored : ∀ s, stored = some s → 0 ≤ s.tokens ∧ s.lastRefill ≤ t0) :
    BucketInv (loadBucketState stored rpm t0) ∧
    (loadBucketState stored rpm t0).lastRefill ≤ t0 := by
  cases stored with
  | none => exact ⟨⟨hrpm, le_refl _⟩, le_refl _⟩
  | some s =>
    obtain ⟨hs0, hslr⟩ := hstored s rfl
    exact ⟨⟨le_min hs0 hrpm, min_le_right _ _⟩, hslr⟩

/-- C3: starting from a bucket restored from persistence at construction
time `t0` (persisted by this program, hence with a non-negative token count
and a timestamp not in the future), along any chronological trace of
limiter operations every observed bucket state satisfies
`0 ≤ tokens ≤ maxTokens`; moreover a refill never decreases `tokens`, a
successful consume yields exactly the refilled token count minus 1 (an
unsuccessful one leaves the refilled bucket unchanged), and `markExhausted`
forces `tokens = 0`. -/
theorem C3_bucket_invariant (rpm t0 : ℚ) (stored : Option SavedBucket)
    (ops : List BucketOp)
    (hrpm : 0 ≤ rpm)
    (hstored : ∀ s, stored = some s → 0 ≤ s.tokens ∧ s.lastRefill ≤ t0)
    (hchr : Chronological t0 ops) :
    (∀ st ∈ bucketStates rpm
        (refillBucket (loadBucketState stored rpm t0) rpm t0) ops, BucketInv st) ∧
    (∀ b t, BucketInv b → b.lastRefill ≤ t →
      b.tokens ≤ (bucketStep rpm b (.refill t)).tokens ∧
      (1 ≤ (refillBucket b rpm t).tokens →
        (bucketStep rpm b (.consume t)).tokens = (refillBucket b rpm t).tokens - 1) ∧
      ((refillBucket b rpm t).tokens < 1 →
        bucketStep rpm b (.consume t) = refillBucket b rpm t) ∧
      (bucketStep rpm b (.markExhausted t)).tokens = 0) := by
  obtain ⟨hinv, hlr⟩ := loadBucketState_inv stored rpm t0 hrpm hstored
  constructor
  · exact bucketStates_inv rpm t0 _ ops hrpm
      (refillBucket_inv _ rpm t0 hrpm hinv hlr) (le_refl _) hchr
  · intro b t hb hble
    refine ⟨refillBucket_mono b rpm t hrpm hb hble, ?_, ?_, rfl⟩
    · intro h1
      simp only [bucketStep]
      rw [if_neg (not_lt.mpr h1)]
    · intro h1
      simp only [bucketStep]
      rw [if_pos h1]

/-- Witness for `C3_bucket_invariant`: a persisted record with 3 tokens
saved at time −10, constructed at time 0, then refilled at 100, consumed at
200 and marked exhausted at 300. -/
theorem C3_bucket_invariant_witness :
    (∀ st ∈ bucketStates 15
        (refillBucket (loadBucketState (some ⟨3, -10⟩) 15 0) 15 0)
        [BucketOp.refill 100, BucketOp.consume 200, BucketOp.markExhausted 300],
      BucketInv st) ∧
    (∀ b t, BucketInv b → b.lastRefill ≤ t →
      b.tokens ≤ (bucketStep 15 b (.refill t)).tokens ∧
      (1 ≤ (refillBucket b 15 t).tokens →
        (bucketStep 15 b (.consume t)).tokens = (refillBucket b 15 t).tokens - 1) ∧
      ((refillBucket b 15 t).tokens < 1 →
        bucketStep 15 b (.consume t) = refillBucket b 15 t) ∧
      (bucketStep 15 b (.markExhausted t)).tokens = 0) :=
  C3_bucket_invariant 15 0 (some ⟨3, -10⟩)
    [BucketOp.refill 100, BucketOp.consume 200, BucketOp.markExhausted 300]
    (by norm_num)
    (fun s hs => by cases hs; constructor <;> norm_num)
    (by simp only [Chronological, BucketOp.time]; norm_num)

/-! ## Characterization of `getBestKey` -/

/-- The refilled token count a key would show at time `now` (0 when the key
has no bucket, in which case `getBestKey` skips it). -/
def refilledTokens (env : RLEnv) (st : RLState) (k : ApiKeyEntry) (now : ℚ) : ℚ :=
  match st.buckets k.id with
  | none => 0
  | some b => (refillBucket b (env.tierLimits k.tier).rpm now).tokens

/-- The Boolean value `checkDailyLimit` computes for key `k`, as a pure
function of the pre-call state. -/
def dailyOkB (env : RLEnv) (st : RLState) (k : ApiKeyEntry) (now : ℚ) : Bool :=
  match (env.tierLimits k.tier).rpd with
  | none => true
  | some rpd =>
    let usage :=
      match st.daily k.id with
      | some u => u
      | none => loadDailyUsage env (st.storedDaily k.id) now
    if usage.resetAt ≤ now then decide (0 < rpd) else decide (usage.count < rpd)

/-- A key qualifies for `getBestKey`: it has a bucket, has remaining daily
quota, and its refilled bucket holds at least one token. -/
def Qual (env : RLEnv) (st : RLState) (k : ApiKeyEntry) (now : ℚ) : Prop :=
  (st.buckets k.id).isSome = true ∧ dailyOkB env st k now = true ∧
    1 ≤ refilledTokens env st k now

/-- Pure restatement of the `getBestKey` scan over the pre-call state. -/
def pickBest (env : RLEnv) (st : RLState) (now : ℚ) :
    List ApiKeyEntry → Option ApiKeyEntry → ℚ → Option ApiKeyEntry
  | [], best, _ => best
  | k :: rest, best, maxT =>
    match st.buckets k.id with
    | none => pickBest env st now rest best maxT
    | some b =>
      let tok := (refillBucket b (env.tierLimits k.tier).rpm now).tokens
      if dailyOkB env st k now then
        if 1 ≤ tok ∧ maxT < tok then pickBest env st now rest (some k) tok
        else pickBest env st now rest best maxT
      else pickBest env st now rest best maxT

theorem refilledTokens_eq (env : RLEnv) (st : RLState) (k : ApiKeyEntry) (now : ℚ)
    (b : TokenBucketState) (hb : st.buckets k.id = some b) :
    refilledTokens env st k now = (refillBucket b (env.tierLimits k.tier).rpm now).tokens := by
  simp only [refilledTokens, hb]

theorem pickBest_isSome (env : RLEnv) (st : RLState) (now : ℚ)
    (ks : List ApiKeyEntry) : ∀ (k₀ : ApiKeyEntry) (m : ℚ),
    (pickBest env st now ks (some k₀) m).isSome = true := by
  induction ks with
  | nil => intro k₀ m; rfl
  | cons k rest ih =>
    intro k₀ m
    cases hb : st.buckets k.id with
    | none => simp only [pickBest, hb]; exact ih k₀ m
    | some b =>
      simp only [pickBest, hb]
      by_cases hd : dailyOkB env st k now
      · rw [if_pos hd]
        by_cases hc : 1 ≤ (refillBucket b (env.tierLimits k.tier).rpm now).tokens ∧
            m < (refillBucket b (env.tierLimits k.tier).rpm now).tokens
        · rw [if_pos hc]; exact ih k _
        · rw [if_neg hc]; exact ih k₀ m
      · rw [if_neg hd]; exact ih k₀ m

theorem pickBest_none_iff (env : RLEnv) (st : RLState) (now : ℚ)
    (ks : List ApiKeyEntry) :
    (pickBest env st now ks none 0 = none ↔ ∀ k ∈ ks, ¬ Qual env st k now) := by
  induction ks with
  | nil => simp [pickBest]
  | cons k rest ih =>
    rw [List.forall_mem_cons]
    cases hb : st.buckets k.id with
    | none =>
      simp only [pickBest, hb]
      rw [ih]
      have hq : ¬ Qual env st k now := by
        intro hq
        rw [Qual, hb] at hq
        simp at hq
      tauto
    | some b =>
      simp only [pickBest, hb]
      by_cases hd : dailyOkB env st k now
      · rw [if_pos hd]
        by_cases h1 : 1 ≤ (refillBucket b (env.tierLimits k.tier).rpm now).tokens
        · have hc : 1 ≤ (refillBucket b (env.tierLimits k.tier).rpm now).tokens ∧
              (0:ℚ) < (refillBucket b (env.tierLimits k.tier).rpm now).tokens :=
            ⟨h1, lt_of_lt_of_le zero_lt_one h1⟩
          rw [if_pos hc]
          have hs := pickBest_isSome env st now rest k
            (refillBucket b (env.tierLimits k.tier).rpm now).tokens
          have hq : Qual env st k now := by
            refine ⟨by simp [hb], hd, ?_⟩
            rw [refilledTokens_eq env st k now b hb]
            exact h1
          constructor
          · intro hnone
            rw [hnone] at hs
            simp at hs
          · intro ⟨hk, _⟩
            exact absurd hq hk
        · have hc : ¬ (1 ≤ (refillBucket b (env.tierLimits k.tier).rpm now).tokens ∧
              (0:ℚ) < (refillBucket b (env.tierLimits k.tier).rpm now).tokens) := by
            intro hc; exact h1 hc.1
          rw [if_neg hc, ih]
          have hq : ¬ Qual env st k now := by
            intro hq
            have h3 := hq.2.2
            rw [refilledTokens_eq env st k now b hb] at h3
            exact h1 h3
          tauto
      · rw [if_neg hd, ih]
        have hq : ¬ Qual env st k now := by
          intro hq
          exact hd hq.2.1
        tauto

theorem pickBest_some_spec (env : RLEnv) (st : RLState) (now : ℚ) :
    ∀ (ks : List ApiKeyEntry) (best : Option ApiKeyEntry) (m : ℚ) (k : ApiKeyEntry),
    pickBest env st now ks best m = some k →
    (best = some k ∧ ∀ j ∈ ks, Qual env st j now → refilledTokens env st j now ≤ m) ∨
    (∃ l₁ l₂, ks = l₁ ++ k :: l₂ ∧ Qual env st k now ∧
      m < refilledTokens env st k now ∧
      (∀ j ∈ l₁, Qual env st j now →
        refilledTokens env st j now < refilledTokens env st k now) ∧
      (∀ j ∈ l₂, Qual env st j now →
        refilledTokens env st j now ≤ refilledTokens env st k now)) := by
  intro ks
  induction ks with
  | nil =>
    intro best m k h
    exact Or.inl ⟨h, by simp⟩
  | cons k₁ rest ih =>
    intro best m k h
    cases hb : st.buckets k₁.id with
    | none =>
      simp only [pickBest, hb] at h
      have hq₁ : ¬ Qual env st k₁ now := by
        intro hq; rw [Qual, hb] at hq; simp at hq
      rcases ih best m k h with ⟨hbk, hall⟩ | ⟨l₁, l₂, heq, hq, hm, h₁, h₂⟩
      · exact Or.inl ⟨hbk, by
          rw [List.forall_mem_cons]
          exact ⟨fun hq => absurd hq hq₁, hall⟩⟩
      · refine Or.inr ⟨k₁ :: l₁, l₂, by rw [heq, List.cons_append], hq, hm, ?_, h₂⟩
        rw [List.forall_mem_cons]
        exact ⟨fun hq => absurd hq hq₁, h₁⟩
    | some b =>
      simp only [pickBest, hb] at h
      have hrt : refilledTokens env st k₁ now =
          (refillBucket b (env.tierLimits k₁.tier).rpm now).tokens :=
        refilledTokens_eq env st k₁ now b hb
      by_cases hd : dailyOkB env st k₁ now
      · rw [if_pos hd] at h
        by_cases hc : 1 ≤ (refillBucket b (env.tierLimits k₁.tier).rpm now).tokens ∧
            m < (refillBucket b (env.tierLimits k₁.tier).rpm now).tokens
        · rw [if_pos hc] at h
          have hq₁ : Qual env st k₁ now := ⟨by simp [hb], hd, by rw [hrt]; exact hc.1⟩
          rcases ih (some k₁) _ k h with ⟨hbk, hall⟩ | ⟨l₁, l₂, heq, hq, hm, h₁, h₂⟩
          · obtain rfl : k₁ = k := by injection hbk
            refine Or.inr ⟨[], rest, rfl, hq₁, by rw [hrt]; exact hc.2, by simp, ?_⟩
            intro j hj hqj
            rw [hrt]
            exact hall j hj hqj
          · refine Or.inr ⟨k₁ :: l₁, l₂, by rw [heq, List.cons_append], hq, ?_, ?_, h₂⟩
            · calc m < (refillBucket b (env.tierLimits k₁.tier).rpm now).tokens := hc.2
                _ < refilledTokens env st k now := hm
            · rw [List.forall_mem_cons]
              refine ⟨fun _ => ?_, h₁⟩
              rw [hrt]
              exact hm
        · rw [if_neg hc] at h
          have hk₁ : Qual env st k₁ now → refilledTokens env st k₁ now ≤ m := by
            intro hq
            rw [hrt]
            by_contra hgt
            push_neg at hgt
            have h3 := hq.2.2
            rw [hrt] at h3
            exact hc ⟨h3, hgt⟩
          rcases ih best m k h with ⟨hbk, hall⟩ | ⟨l₁, l₂, heq, hq, hm, h₁, h₂⟩
          · exact Or.inl ⟨hbk, by
              rw [List.forall_mem_cons]
              exact ⟨hk₁, hall⟩⟩
          · refine Or.inr ⟨k₁ :: l₁, l₂, by rw [heq, List.cons_append], hq, hm, ?_, h₂⟩
            rw [List.forall_mem_cons]
            refine ⟨fun hq => lt_of_le_of_lt (hk₁ hq) hm, h₁⟩
      · rw [if_neg hd] at h
        have hq₁ : ¬ Qual env st k₁ now := fun hq => hd hq.2.1
        rcases ih best m k h with ⟨hbk, hall⟩ | ⟨l₁, l₂, heq, hq, hm, h₁, h₂⟩
        · exact Or.inl ⟨hbk, by
            rw [List.forall_mem_cons]
            exact ⟨fun hq => absurd hq hq₁, hall⟩⟩
        · refine Or.inr ⟨k₁ :: l₁, l₂, by rw [heq, List.cons_append], hq, hm, ?_, h₂⟩
          rw [List.forall_mem_cons]
          exact ⟨fun hq => absurd hq hq₁, h₁⟩

theorem checkDailyLimit_state (env : RLEnv) (st : RLState) (keyId : String)
    (tier : ApiTier) (now : ℚ) :
    (checkDailyLimit env st keyId tier now).2.keys = st.keys ∧
    (checkDailyLimit env st keyId tier now).2.buckets = st.buckets ∧
    (checkDailyLimit env st keyId tier now).2.storedBuckets = st.storedBuckets ∧
    (∀ x, x ≠ keyId →
      (checkDailyLimit env st keyId tier now).2.daily x = st.daily x ∧
      (checkDailyLimit env st keyId tier now).2.storedDaily x = st.storedDaily x) := by
  cases hr : (env.tierLimits tier).rpd with
  | none =>
    simp only [checkDailyLimit, hr]
    simp
  | some rpd =>
    simp only [checkDailyLimit, hr]
    split
    · refine ⟨rfl, rfl, rfl, fun x hx => ⟨?_, ?_⟩⟩
      · show setKey (setKey st.daily keyId _) keyId _ x = st.daily x
        rw [setKey_ne _ _ _ _ hx, setKey_ne _ _ _ _ hx]
      · show setKey st.storedDaily keyId _ x = st.storedDaily x
        rw [setKey_ne _ _ _ _ hx]
    · refine ⟨rfl, rfl, rfl, fun x hx => ⟨?_, rfl⟩⟩
      show setKey st.daily keyId _ x = st.daily x
      rw [setKey_ne _ _ _ _ hx]

theorem checkDailyLimit_fst (env : RLEnv) (st st₀ : RLState) (k : ApiKeyEntry)
    (now : ℚ) (had : st.daily k.id = st₀.daily k.id)
    (hasd : st.storedDaily k.id = st₀.storedDaily k.id) :
    (checkDailyLimit env st k.id k.tier now).1 = dailyOkB env st₀ k now := by
  cases hr : (env.tierLimits k.tier).rpd with
  | none => simp only [checkDailyLimit, dailyOkB, hr]
  | some rpd =>
    simp only [checkDailyLimit, dailyOkB, hr, had, hasd]
    cases hu : st₀.daily k.id with
    | none =>
      by_cases hif : (loadDailyUsage env (st₀.storedDaily k.id) now).resetAt ≤ now
      · rw [if_pos hif, if_pos hif]
      · rw [if_neg hif, if_neg hif]
    | some u =>
      by_cases hif : u.resetAt ≤ now
      · rw [if_pos hif, if_pos hif]
      · rw [if_neg hif, if_neg hif]

theorem getBestKeyAux_fst_eq (env : RLEnv) (now : ℚ) :
    ∀ (ks : List ApiKeyEntry) (st st₀ : RLState) (best : Option ApiKeyEntry) (m : ℚ),
    (∀ k ∈ ks, st.buckets k.id = st₀.buckets k.id ∧ st.daily k.id = st₀.daily k.id ∧
      st.storedDaily k.id = st₀.storedDaily k.id) →
    (ks.map ApiKeyEntry.id).Nodup →
    (getBestKeyAux env now ks st best m).1 = pickBest env st₀ now ks best m := by
  intro ks
  induction ks with
  | nil => intro st st₀ best m _ _; rfl
  | cons k rest ih =>
    intro st st₀ best m hagree hnodup
    obtain ⟨hab, had, hasd⟩ := hagree k (List.mem_cons_self k rest)
    have harest := fun j hj => hagree j (List.mem_cons_of_mem k hj)
    rw [List.map_cons, List.nodup_cons] at hnodup
    cases hb : st₀.buckets k.id with
    | none =>
      simp only [getBestKeyAux, pickBest, hab, hb]
      exact ih st st₀ best m harest hnodup.2
    | some bucket =>
      simp only [getBestKeyAux, pickBest, hab, hb]
      have hfst := checkDailyLimit_fst env
        { st with buckets := setKey st.buckets k.id (refillBucket bucket (env.tierLimits k.tier).rpm now) } st₀ k now had hasd
      rw [hfst]
      have hframe := checkDailyLimit_state env
        { st with buckets := setKey st.buckets k.id (refillBucket bucket (env.tierLimits k.tier).rpm now) } k.id k.tier now
      have hagree2 : ∀ j ∈ rest,
          (checkDailyLimit env
            { st with buckets := setKey st.buckets k.id (refillBucket bucket (env.tierLimits k.tier).rpm now) }
            k.id k.tier now).2.buckets j.id = st₀.buckets j.id ∧
          (checkDailyLimit env
            { st with buckets := setKey st.buckets k.id (refillBucket bucket (env.tierLimits k.tier).rpm now) }
            k.id k.tier now).2.daily j.id = st₀.daily j.id ∧
          (checkDailyLimit env
            { st with buckets := setKey st.buckets k.id (refillBucket bucket (env.tierLimits k.tier).rpm now) }
            k.id k.tier now).2.storedDaily j.id = st₀.storedDaily j.id := by
        intro j hj
        have hne : j.id ≠ k.id := by
          intro hcontra
          exact hnodup.1 (hcontra ▸ List.mem_map_of_mem ApiKeyEntry.id hj)
        obtain ⟨hjd, hjsd⟩ := hframe.2.2.2 j.id hne
        refine ⟨?_, ?_, ?_⟩
        · rw [hframe.2.1]
          show setKey st.buckets k.id _ j.id = _
          rw [setKey_ne _ _ _ _ hne]
          exact (hagree j (List.mem_cons_of_mem k hj)).1
        · rw [hjd]
          exact (hagree j (List.mem_cons_of_mem k hj)).2.1
        · rw [hjsd]
          exact (hagree j (List.mem_cons_of_mem k hj)).2.2
      by_cases hdo : dailyOkB env st₀ k now
      · rw [if_pos hdo, if_pos hdo]
        by_cases hcond : 1 ≤ (refillBucket bucket (env.tierLimits k.tier).rpm now).tokens ∧
            m < (refillBucket bucket (env.tierLimits k.tier).rpm now).tokens
        · rw [if_pos hcond, if_pos hcond]
          exact ih _ st₀ (some k) _ hagree2 hnodup.2
        · rw [if_neg hcond, if_neg hcond]
          exact ih _ st₀ best m hagree2 hnodup.2
      · rw [if_neg hdo, if_neg hdo]
        exact ih _ st₀ best m hagree2 hnodup.2

theorem getBestKeyAux_keys (env : RLEnv) (now : ℚ) :
    ∀ (ks : List ApiKeyEntry) (st : RLState) (best : Option ApiKeyEntry) (m : ℚ),
    (getBestKeyAux env now ks st best m).2.keys = st.keys := by
  intro ks
  induction ks with
  | nil => intro st best m; rfl
  | cons k rest ih =>
    intro st best m
    cases hb : st.buckets k.id with
    | none => simp only [getBestKeyAux, hb]; exact ih st best m
    | some bucket =>
      simp only [getBestKeyAux, hb]
      have hframe := checkDailyLimit_state env
        { st with buckets := setKey st.buckets k.id (refillBucket bucket (env.tierLimits k.tier).rpm now) } k.id k.tier now
      by_cases hdo : (checkDailyLimit env
          { st with buckets := setKey st.buckets k.id (refillBucket bucket (env.tierLimits k.tier).rpm now) }
          k.id k.tier now).1 = true
      · rw [if_pos hdo]
        split
        · rw [ih]; exact hframe.1
        · rw [ih]; exact hframe.1
      · rw [if_neg hdo]
        rw [ih]; exact hframe.1

theorem getBestKeyAux_buckets_frame (env : RLEnv) (now : ℚ) :
    ∀ (ks : List ApiKeyEntry) (st : RLState) (best : Option ApiKeyEntry) (m : ℚ)
      (x : String), x ∉ ks.map ApiKeyEntry.id →
    (getBestKeyAux env now ks st best m).2.buckets x = st.buckets x := by
  intro ks
  induction ks with
  | nil => intro st best m x _; rfl
  | cons k rest ih =>
    intro st best m x hx
    rw [List.map_cons] at hx
    have hxk : x ≠ k.id := fun h => hx (h ▸ List.mem_cons_self _ _)
    have hxrest : x ∉ rest.map ApiKeyEntry.id := fun h => hx (List.mem_cons_of_mem _ h)
    cases hb : st.buckets k.id with
    | none => simp only [getBestKeyAux, hb]; exact ih st best m x hxrest
    | some bucket =>
      simp only [getBestKeyAux, hb]
      have hframe := checkDailyLimit_state env
        { st with buckets := setKey st.buckets k.id (refillBucket bucket (env.tierLimits k.tier).rpm now) } k.id k.tier now
      have hmid : (checkDailyLimit env
          { st with buckets := setKey st.buckets k.id (refillBucket bucket (env.tierLimits k.tier).rpm now) }
          k.id k.tier now).2.buckets x = st.buckets x := by
        rw [hframe.2.1]
        show setKey st.buckets k.id _ x = _
        rw [setKey_ne _ _ _ _ hxk]
      by_cases hdo : (checkDailyLimit env
          { st with buckets := setKey st.buckets k.id (refillBucket bucket (env.tierLimits k.tier).rpm now) }
          k.id k.tier now).1 = true
      · rw [if_pos hdo]
        split
        · rw [ih _ _ _ x hxrest]; exact hmid
        · rw [ih _ _ _ x hxrest]; exact hmid
      · rw [if_neg hdo]
        rw [ih _ _ _ x hxrest]; exact hmid

theorem getBestKeyAux_refills (env : RLEnv) (now : ℚ) :
    ∀ (ks : List ApiKeyEntry) (st st₀ : RLState) (best : Option ApiKeyEntry) (m : ℚ),
    (∀ k ∈ ks, st.buckets k.id = st₀.buckets k.id ∧ st.daily k.id = st₀.daily k.id ∧
      st.storedDaily k.id = st₀.storedDaily k.id) →
    (ks.map ApiKeyEntry.id).Nodup →
    ∀ j ∈ ks, ∀ b, st₀.buckets j.id = some b →
    (getBestKeyAux env now ks st best m).2.buckets j.id =
      some (refillBucket b (env.tierLimits j.tier).rpm now) := by
  intro ks
  induction ks with
  | nil => intro st st₀ best m _ _ j hj; exact absurd hj (List.not_mem_nil j)
  | cons k rest ih =>
    intro st st₀ best m hagree hnodup j hj b hjb
    obtain ⟨hab, had, hasd⟩ := hagree k (List.mem_cons_self k rest)
    have harest := fun j hj => hagree j (List.mem_cons_of_mem k hj)
    rw [List.map_cons, List.nodup_cons] at hnodup
    rcases List.mem_cons.mp hj with rfl | hjr
    · rw [hjb] at hab
      simp only [getBestKeyAux, hab]
      have hframe := checkDailyLimit_state env
        { st with buckets := setKey st.buckets j.id (refillBucket b (env.tierLimits j.tier).rpm now) } j.id j.tier now
      have hmid : (checkDailyLimit env
          { st with buckets := setKey st.buckets j.id (refillBucket b (env.tierLimits j.tier).rpm now) }
          j.id j.tier now).2.buckets j.id =
          some (refillBucket b (env.tierLimits j.tier).rpm now) := by
        rw [hframe.2.1]
        exact setKey_same _ _ _
      by_cases hdo : (checkDailyLimit env
          { st with buckets := setKey st.buckets j.id (refillBucket b (env.tierLimits j.tier).rpm now) }
          j.id j.tier now).1 = true
      · rw [if_pos hdo]
        split
        · rw [getBestKeyAux_buckets_frame env now rest _ _ _ j.id hnodup.1]; exact hmid
        · rw [getBestKeyAux_buckets_frame env now rest _ _ _ j.id hnodup.1]; exact hmid
      · rw [if_neg hdo]
        rw [getBestKeyAux_buckets_frame env now rest _ _ _ j.id hnodup.1]; exact hmid
    · cases hb : st₀.buckets k.id with
      | none =>
        rw [hb] at hab
        simp only [getBestKeyAux, hab]
        exact ih st st₀ best m harest hnodup.2 j hjr b hjb
      | some bucket =>
        rw [hb] at hab
        simp only [getBestKeyAux, hab]
        have hframe := checkDailyLimit_state env
          { st with buckets := setKey st.buckets k.id (refillBucket bucket (env.tierLimits k.tier).rpm now) } k.id k.tier now
        have hagree2 : ∀ i ∈ rest,
            (checkDailyLimit env
              { st with buckets := setKey st.buckets k.id (refillBucket bucket (env.tierLimits k.tier).rpm now) }
              k.id k.tier now).2.buckets i.id = st₀.buckets i.id ∧
            (checkDailyLimit env
              { st with buckets := setKey st.buckets k.id (refillBucket bucket (env.tierLimits k.tier).rpm now) }
              k.id k.tier now).2.daily i.id = st₀.daily i.id ∧
            (checkDailyLimit env
              { st with buckets := setKey st.buckets k.id (refillBucket bucket (env.tierLimits k.tier).rpm now) }
              k.id k.tier now).2.storedDaily i.id = st₀.storedDaily i.id := by
          intro i hi
          have hne : i.id ≠ k.id := by
            intro hcontra
            exact hnodup.1 (hcontra ▸ List.mem_map_of_mem ApiKeyEntry.id hi)
          obtain ⟨hid, hisd⟩ := hframe.2.2.2 i.id hne
          refine ⟨?_, ?_, ?_⟩
          · rw [hframe.2.1]
            show setKey st.buckets k.id _ i.id = _
            rw [setKey_ne _ _ _ _ hne]
            exact (harest i hi).1
          · rw [hid]; exact (harest i hi).2.1
          · rw [hisd]; exact (harest i hi).2.2
        by_cases hdo : (checkDailyLimit env
            { st with buckets := setKey st.buckets k.id (refillBucket bucket (env.tierLimits k.tier).rpm now) }
            k.id k.tier now).1 = true
        · rw [if_pos hdo]
          split
          · exact ih _ st₀ _ _ hagree2 hnodup.2 j hjr b hjb
          · exact ih _ st₀ _ _ hagree2 hnodup.2 j hjr b hjb
        · rw [if_neg hdo]
          exact ih _ st₀ _ _ hagree2 hnodup.2 j hjr b hjb

/-- C5: functional specification of `getBestKey`.  With distinct credential
ids: the scan refills every key's bucket; the result is `none` exactly when
no credential qualifies (has a bucket, remaining daily quota, and at least
one refilled token); and a returned credential qualifies, carries the
greatest refilled token count among qualifying credentials, and strictly
beats every qualifying credential earlier in iteration order (first wins on
ties). -/
theorem C5_getBestKey_spec (env : RLEnv) (st : RLState) (now : ℚ)
    (hnodup : (st.keys.map ApiKeyEntry.id).Nodup) :
    ((getBestKey env st now).1 = none ↔ ∀ k ∈ st.keys, ¬ Qual env st k now) ∧
    (∀ k, (getBestKey env st now).1 = some k →
      Qual env st k now ∧
      (∀ j ∈ st.keys, Qual env st j now →
        refilledTokens env st j now ≤ refilledTokens env st k now) ∧
      (∃ l₁ l₂, st.keys = l₁ ++ k :: l₂ ∧
        ∀ j ∈ l₁, Qual env st j now →
          refilledTokens env st j now < refilledTokens env st k now)) ∧
    (∀ j ∈ st.keys, ∀ b, st.buckets j.id = some b →
      (getBestKey env st now).2.buckets j.id =
        some (refillBucket b (env.tierLimits j.tier).rpm now)) := by
  have hagree : ∀ k ∈ st.keys, st.buckets k.id = st.buckets k.id ∧
      st.daily k.id = st.daily k.id ∧ st.storedDaily k.id = st.storedDaily k.id :=
    fun k _ => ⟨rfl, rfl, rfl⟩
  have heq : (getBestKey env st now).1 = pickBest env st now st.keys none 0 :=
    getBestKeyAux_fst_eq env now st.keys st st none 0 hagree hnodup
  refine ⟨?_, ?_, ?_⟩
  · rw [heq]
    exact pickBest_none_iff env st now st.keys
  · intro k hk
    rw [heq] at hk
    rcases pickBest_some_spec env st now st.keys none 0 k hk with ⟨hbk, _⟩ | h
    · exact absurd hbk (by simp)
    · obtain ⟨l₁, l₂, hsplit, hq, _, h₁, h₂⟩ := h
      refine ⟨hq, ?_, ⟨l₁, l₂, hsplit, h₁⟩⟩
      intro j hj hqj
      rw [hsplit] at hj
      rcases List.mem_append.mp hj with hj₁ | hj₂
      · exact le_of_lt (h₁ j hj₁ hqj)
      · rcases List.mem_cons.mp hj₂ with rfl | hj₂
        · exact le_refl _
        · exact h₂ j hj₂ hqj
  · exact getBestKeyAux_refills env now st.keys st st none 0 hagree hnodup

/-- Witness for `C5_getBestKey_spec` at the concrete one-key instance. -/
theorem C5_getBestKey_spec_witness :
    ((getBestKey env0 st0 100).1 = none ↔ ∀ k ∈ st0.keys, ¬ Qual env0 st0 k 100) ∧
    (∀ k, (getBestKey env0 st0 100).1 = some k →
      Qual env0 st0 k 100 ∧
      (∀ j ∈ st0.keys, Qual env0 st0 j 100 →
        refilledTokens env0 st0 j 100 ≤ refilledTokens env0 st0 k 100) ∧
      (∃ l₁ l₂, st0.keys = l₁ ++ k :: l₂ ∧
        ∀ j ∈ l₁, Qual env0 st0 j 100 →
          refilledTokens env0 st0 j 100 < refilledTokens env0 st0 k 100)) ∧
    (∀ j ∈ st0.keys, ∀ b, st0.buckets j.id = some b →
      (getBestKey env0 st0 100).2.buckets j.id =
        some (refillBucket b (env0.tierLimits j.tier).rpm 100)) :=
  C5_getBestKey_spec env0 st0 100 (by simp [st0, key0])

/-! ## C10: the ignored `consumeRequest` result is always `true` in the
orchestrator's flow -/

/-- Times of the progress-snapshot reads between key acquisition (at `t`)
and token consumption (at `tF`): non-decreasing and bracketed. -/
def ChronoTimes : ℚ → List ℚ → ℚ → Prop
  | t, [], tF => t ≤ tF
  | t, u :: us, tF => t ≤ u ∧ ChronoTimes u us tF

/-- The only limiter interactions between `acquireKey` returning a key and
`consumeRequest` are progress emissions, each of which calls
`getKeyStatuses` (a refilling read). -/
def statusReads (env : RLEnv) : List ℚ → RLState → RLState
  | [], st => st
  | t :: ts, st => statusReads env ts (getKeyStatuses env st t).2

theorem getKeyStatusesAux_keys (env : RLEnv) (t : ℚ) :
    ∀ (ks : List ApiKeyEntry) (st : RLState),
    (getKeyStatusesAux env t ks st).2.keys = st.keys := by
  intro ks
  induction ks with
  | nil => intro st; rfl
  | cons k rest ih =>
    intro st
    simp only [getKeyStatusesAux]
    rw [ih]
    simp only [keyStatusOf]
    cases st.buckets k.id <;> rfl

theorem getKeyStatusesAux_bucket_track (env : RLEnv) (t : ℚ)
    (hrpm : ∀ tier, 0 ≤ (env.tierLimits tier).rpm) :
    ∀ (ks : List ApiKeyEntry) (st : RLState) (x : String) (b : TokenBucketState),
    st.buckets x = some b → BucketInv b → b.lastRefill ≤ t → 1 ≤ b.tokens →
    ∃ b2, (getKeyStatusesAux env t ks st).2.buckets x = some b2 ∧
      BucketInv b2 ∧ b2.lastRefill ≤ t ∧ 1 ≤ b2.tokens := by
  intro ks
  induction ks with
  | nil =>
    intro st x b hb hinv hlr h1
    exact ⟨b, hb, hinv, hlr, h1⟩
  | cons k rest ih =>
    intro st x b hb hinv hlr h1
    simp only [getKeyStatusesAux]
    by_cases hkx : k.id = x
    · subst hkx
      rw [keyStatusOf, hb]
      refine ih _ k.id (refillBucket b (env.tierLimits k.tier).rpm t) ?_ ?_ ?_ ?_
      · exact setKey_same _ _ _
      · exact refillBucket_inv b _ t (hrpm k.tier) hinv hlr
      · exact le_of_eq rfl
      · exact le_trans h1 (refillBucket_mono b _ t (hrpm k.tier) hinv hlr)
    · have hkeep : (keyStatusOf env st k t).2.buckets x = some b := by
        rw [keyStatusOf]
        cases hkb : st.buckets k.id
        · exact hb
        · show setKey st.buckets k.id _ x = some b
          rw [setKey_ne _ _ _ _ (fun h => hkx h.symm)]
          exact hb
      exact ih _ x b hkeep hinv hlr h1

theorem statusReads_keys (env : RLEnv) :
    ∀ (ts : List ℚ) (st : RLState), (statusReads env ts st).keys = st.keys := by
  intro ts
  induction ts with
  | nil => intro st; rfl
  | cons u us ih =>
    intro st
    simp only [statusReads]
    rw [ih]
    exact getKeyStatusesAux_keys env u st.keys st

theorem statusReads_bucket_track (env : RLEnv)
    (hrpm : ∀ tier, 0 ≤ (env.tierLimits tier).rpm) :
    ∀ (ts : List ℚ) (st : RLState) (x : String) (b : TokenBucketState) (t0 tF : ℚ),
    st.buckets x = some b → BucketInv b → b.lastRefill ≤ t0 → 1 ≤ b.tokens →
    ChronoTimes t0 ts tF →
    ∃ b2, (statusReads env ts st).buckets x = some b2 ∧
      BucketInv b2 ∧ b2.lastRefill ≤ tF ∧ 1 ≤ b2.tokens := by
  intro ts
  induction ts with
  | nil =>
    intro st x b t0 tF hb hinv hlr h1 hchr
    exact ⟨b, hb, hinv, le_trans hlr hchr, h1⟩
  | cons u us ih =>
    intro st x b t0 tF hb hinv hlr h1 hchr
    obtain ⟨htu, hrest⟩ := hchr
    obtain ⟨b2, hb2, hinv2, hlr2, h12⟩ :=
      getKeyStatusesAux_bucket_track env u hrpm st.keys st x b hb hinv
        (le_trans hlr htu) h1
    exact ih _ x b2 u tF hb2 hinv2 hlr2 h12 hrest

theorem find?_id_of_mem :
    ∀ (l : List ApiKeyEntry) (i : String), (∃ k ∈ l, k.id = i) →
    ∃ key2, l.find? (fun k => k.id = i) = some key2 := by
  intro l
  induction l with
  | nil =>
    intro i h
    obtain ⟨k, hk, _⟩ := h
    exact absurd hk (List.not_mem_nil k)
  | cons a rest ih =>
    intro i h
    by_cases ha : a.id = i
    · exact ⟨a, by simp [List.find?, ha]⟩
    · obtain ⟨k, hk, hki⟩ := h
      rcases List.mem_cons.mp hk with rfl | hkr
      · exact absurd hki ha
      · obtain ⟨key2, hkey2⟩ := ih i ⟨k, hkr, hki⟩
        exact ⟨key2, by simp [List.find?, ha, hkey2]⟩

/-- C10: if `getBestKey` returns a key (the successful exit of
`acquireKey`), then after any sequence of progress-snapshot reads at
non-decreasing times, the `consumeRequest` issued for that key at both
orchestrator dispatch sites returns `true` — the ignored `false` branch is
unreachable in that flow.  Hypotheses: distinct credential ids,
non-negative tier refill rates, and times that do not run backwards. -/
theorem C10_consume_after_acquire (env : RLEnv) (st : RLState) (now tF : ℚ)
    (ts : List ℚ) (k : ApiKeyEntry)
    (hnodup : (st.keys.map ApiKeyEntry.id).Nodup)
    (hrpm : ∀ tier, 0 ≤ (env.tierLimits tier).rpm)
    (hsome : (getBestKey env st now).1 = some k)
    (hts : ChronoTimes now ts tF) :
    (consumeRequest env (statusReads env ts (getBestKey env st now).2) k.id tF).1 =
      true := by
  have hagree : ∀ j ∈ st.keys, st.buckets j.id = st.buckets j.id ∧
      st.daily j.id = st.daily j.id ∧ st.storedDaily j.id = st.storedDaily j.id :=
    fun j _ => ⟨rfl, rfl, rfl⟩
  have heq : (getBestKey env st now).1 = pickBest env st now st.keys none 0 :=
    getBestKeyAux_fst_eq env now st.keys st st none 0 hagree hnodup
  rw [heq] at hsome
  rcases pickBest_some_spec env st now st.keys none 0 k hsome with ⟨hbk, _⟩ | h
  · exact absurd hbk (by simp)
  obtain ⟨l₁, l₂, hsplit, hq, _, _, _⟩ := h
  have hkmem : k ∈ st.keys := by
    rw [hsplit]
    exact List.mem_append_right l₁ (List.mem_cons_self k l₂)
  obtain ⟨hbsome, _, h1⟩ := hq
  obtain ⟨b, hb⟩ := Option.isSome_iff_exists.mp hbsome
  rw [refilledTokens_eq env st k now b hb] at h1
  have hrefilled := getBestKeyAux_refills env now st.keys st st none 0 hagree hnodup
    k hkmem b hb
  have hInvB : BucketInv (refillBucket b (env.tierLimits k.tier).rpm now) := by
    constructor
    · exact le_trans zero_le_one h1
    · exact min_le_left _ _
  obtain ⟨b2, hb2, hinv2, hlr2, h12⟩ :=
    statusReads_bucket_track env hrpm ts (getBestKey env st now).2 k.id
      (refillBucket b (env.tierLimits k.tier).rpm now) now tF hrefilled hInvB
      (le_refl now) h1 hts
  have hkeys2 : (statusReads env ts (getBestKey env st now).2).keys = st.keys := by
    rw [statusReads_keys]
    exact getBestKeyAux_keys env now st.keys st none 0
  obtain ⟨key2, hfind2⟩ := find?_id_of_mem st.keys k.id ⟨k, hkmem, rfl⟩
  have hfind3 : (statusReads env ts (getBestKey env st now).2).keys.find?
      (fun j => j.id = k.id) = some key2 := by
    rw [hkeys2]
    exact hfind2
  have hmono : 1 ≤ (refillBucket b2 (env.tierLimits key2.tier).rpm tF).tokens :=
    le_trans h12 (refillBucket_mono b2 _ tF (hrpm key2.tier) hinv2 hlr2)
  simp only [consumeRequest, hfind3, hb2]
  rw [if_neg (not_lt.mpr hmono)]

/-- Witness for `C10_consume_after_acquire` at the concrete instance: the
single key is acquired at time 100, one progress read happens at 150, and
the consume at 200 succeeds. -/
theorem C10_consume_after_acquire_witness :
    (consumeRequest env0 (statusReads env0 [150] (getBestKey env0 st0 100).2)
      key0.id 200).1 = true :=
  C10_consume_after_acquire env0 st0 100 200 [150] key0
    (by simp [st0, key0])
    (fun tier => by norm_num [env0])
    (by norm_num [getBestKey, getBestKeyAux, checkDailyLimit, env0, st0, key0,
      refillBucket, getRefillRate, setKey, loadDailyUsage, saveDailyUsage])
    (by norm_num [ChronoTimes])

/-! ## Batch planner (`createDynamicBatches` in `src/services/gemini.ts`) -/

/-- `ImageInput` from `gemini.ts`: one logical document.  The page payloads
(mime type and base64 data) are opaque to the planner and orchestrator
logic modelled here and are omitted. -/
structure ImageInput : Type where
  id : String
  sourceFile : String
  pageCount : ℕ
deriving DecidableEq, Repr

/-- Modelled from the spec: the numeric configuration constants
(`MAX_DOCS_PER_BATCH`, `TOKENS_PER_IMAGE_PAGE`, `PROMPT_OVERHEAD_TOKENS`,
`ESTIMATED_RESPONSE_TOKENS_PER_DOC`, `TOKEN_BUDGET_PER_REQUEST`,
`BATCH_QUALITY_THRESHOLD`, `RATE_LIMIT_CONFIG.maxRetriesPerImage`,
`RATE_LIMIT_CONFIG.maxWaitTimeMs`) are imported by `gemini.ts` from a
constants module that is not present under `src/`; they are kept abstract
as the fields of this structure. -/
structure GeminiCfg : Type where
  maxDocsPerBatch : ℕ
  tokensPerImagePage : ℕ
  promptOverheadTokens : ℕ
  estimatedResponseTokensPerDoc : ℕ
  tokenBudgetPerRequest : ℕ
  batchQualityThreshold : ℤ
  maxRetriesPerImage : ℕ
  maxWaitTimeMs : ℚ

/-- Per-document token cost estimate from `createDynamicBatches`:
`pageCount * TOKENS_PER_IMAGE_PAGE + ESTIMATED_RESPONSE_TOKENS_PER_DOC`. -/
def docCost (cfg : GeminiCfg) (img : ImageInput) : ℕ :=
  img.pageCount * cfg.tokensPerImagePage + cfg.estimatedResponseTokensPerDoc

/-- The loop of `createDynamicBatches`, with the current batch and its
running token estimate as accumulators. -/
def createDynamicBatchesAux (cfg : GeminiCfg) :
    List ImageInput → List ImageInput → ℕ → List (List ImageInput)
  | [], cur, _ => if cur = [] then [] else [cur]
  | img :: rest, cur, curTokens =>
    let cost := docCost cfg img
    let wouldExceedDocs := cfg.maxDocsPerBatch ≤ cur.length
    let wouldExceedTokens := cfg.tokenBudgetPerRequest < curTokens + cost
    if cur ≠ [] ∧ (wouldExceedDocs ∨ wouldExceedTokens) then
      cur :: createDynamicBatchesAux cfg rest [img] (cfg.promptOverheadTokens + cost)
    else
      createDynamicBatchesAux cfg rest (cur ++ [img]) (curTokens + cost)

/-- `createDynamicBatches` from `gemini.ts`. -/
def createDynamicBatches (cfg : GeminiCfg) (images : List ImageInput) :
    List (List ImageInput) :=
  createDynamicBatchesAux cfg images [] cfg.promptOverheadTokens

theorem createDynamicBatchesAux_flatten (cfg : GeminiCfg) :
    ∀ (rest cur : List ImageInput) (t : ℕ),
    (createDynamicBatchesAux cfg rest cur t).flatten = cur ++ rest := by
  intro rest
  induction rest with
  | nil =>
    intro cur t
    by_cases hc : cur = []
    · simp [createDynamicBatchesAux, hc]
    · simp [createDynamicBatchesAux, hc]
  | cons img rest2 ih =>
    intro cur t
    simp only [createDynamicBatchesAux]
    split
    · simp only [List.flatten_cons, ih]
      simp
    · rw [ih]
      simp

theorem createDynamicBatchesAux_ne_nil (cfg : GeminiCfg) :
    ∀ (rest cur : List ImageInput) (t : ℕ),
    ∀ b ∈ createDynamicBatchesAux cfg rest cur t, b ≠ [] := by
  intro rest
  induction rest with
  | nil =>
    intro cur t b hb
    by_cases hc : cur = []
    · simp [createDynamicBatchesAux, hc] at hb
    · simp only [createDynamicBatchesAux, if_neg hc, List.mem_singleton] at hb
      exact hb ▸ hc
  | cons img rest2 ih =>
    intro cur t b hb
    simp only [createDynamicBatchesAux] at hb
    split at hb
    · rcases List.mem_cons.mp hb with rfl | hb2
      · next hcond => exact hcond.1
      · exact ih [img] _ b hb2
    · exact ih (cur ++ [img]) _ b hb

theorem createDynamicBatchesAux_len (cfg : GeminiCfg)
    (hmax : 1 ≤ cfg.maxDocsPerBatch) :
    ∀ (rest cur : List ImageInput) (t : ℕ), cur.length ≤ cfg.maxDocsPerBatch →
    ∀ b ∈ createDynamicBatchesAux cfg rest cur t, b.length ≤ cfg.maxDocsPerBatch := by
  intro rest
  induction rest with
  | nil =>
    intro cur t hcur b hb
    by_cases hc : cur = []
    · simp [createDynamicBatchesAux, hc] at hb
    · simp only [createDynamicBatchesAux, if_neg hc, List.mem_singleton] at hb
      exact hb ▸ hcur
  | cons img rest2 ih =>
    intro cur t hcur b hb
    simp only [createDynamicBatchesAux] at hb
    split at hb
    · rcases List.mem_cons.mp hb with rfl | hb2
      · exact hcur
      · exact ih [img] _ (by simp only [List.length_singleton]; exact hmax) b hb2
    · next hcond =>
      refine ih (cur ++ [img]) _ ?_ b hb
      rw [List.length_append, List.length_singleton]
      push_neg at hcond
      by_cases hc : cur = []
      · subst hc; simpa using hmax
      · have := (hcond hc).1
        omega

theorem createDynamicBatchesAux_stuck (cfg : GeminiCfg) :
    ∀ (rest cur : List ImageInput) (t : ℕ), cur ≠ [] →
    cfg.tokenBudgetPerRequest < t →
    cur ∈ createDynamicBatchesAux cfg rest cur t := by
  intro rest
  induction rest with
  | nil =>
    intro cur t hc _
    simp [createDynamicBatchesAux, hc]
  | cons img rest2 ih =>
    intro cur t hc ht
    simp only [createDynamicBatchesAux]
    rw [if_pos ⟨hc, Or.inr (by omega)⟩]
    exact List.mem_cons_self _ _

theorem createDynamicBatchesAux_oversize (cfg : GeminiCfg) :
    ∀ (rest cur : List ImageInput) (t : ℕ),
    t = cfg.promptOverheadTokens + (cur.map (docCost cfg)).sum →
    ∀ img ∈ rest, cfg.tokenBudgetPerRequest < cfg.promptOverheadTokens + docCost cfg img →
    [img] ∈ createDynamicBatchesAux cfg rest cur t := by
  intro rest
  induction rest with
  | nil =>
    intro cur t _ img hmem
    exact absurd hmem (List.not_mem_nil img)
  | cons img₁ rest2 ih =>
    intro cur t hinv img hmem hbig
    rcases List.mem_cons.mp hmem with rfl | hmem2
    · by_cases hc : cur = []
      · subst hc
        simp only [createDynamicBatchesAux]
        rw [if_neg (by simp)]
        exact createDynamicBatchesAux_stuck cfg rest2 [img] _ (by simp)
          (by simp only [hinv]; simpa using hbig)
      · simp only [createDynamicBatchesAux]
        rw [if_pos ⟨hc, Or.inr (by omega)⟩]
        exact List.mem_cons_of_mem cur
          (createDynamicBatchesAux_stuck cfg rest2 [img] _ (by simp) hbig)
    · simp only [createDynamicBatchesAux]
      split
      · exact List.mem_cons_of_mem cur (ih [img₁] _ (by simp) img hmem2 hbig)
      · exact ih (cur ++ [img₁]) _ (by rw [hinv]; simp; omega) img hmem2 hbig

theorem createDynamicBatchesAux_budget (cfg : GeminiCfg) :
    ∀ (rest cur : List ImageInput) (t : ℕ),
    t = cfg.promptOverheadTokens + (cur.map (docCost cfg)).sum →
    (cur.length ≤ 1 ∨ t ≤ cfg.tokenBudgetPerRequest) →
    ∀ b ∈ createDynamicBatchesAux cfg rest cur t,
      b.length ≤ 1 ∨
        cfg.promptOverheadTokens + (b.map (docCost cfg)).sum ≤
          cfg.tokenBudgetPerRequest := by
  intro rest
  induction rest with
  | nil =>
    intro cur t hinv hok b hb
    by_cases hc : cur = []
    · simp [createDynamicBatchesAux, hc] at hb
    · simp only [createDynamicBatchesAux, if_neg hc, List.mem_singleton] at hb
      subst hb
      rw [← hinv]
      exact hok
  | cons img rest2 ih =>
    intro cur t hinv hok b hb
    simp only [createDynamicBatchesAux] at hb
    split at hb
    · rcases List.mem_cons.mp hb with rfl | hb2
      · rw [← hinv]; exact hok
      · exact ih [img] _ (by simp) (Or.inl (by simp)) b hb2
    · next hcond =>
      refine ih (cur ++ [img]) _ (by rw [hinv]; simp; omega) ?_ b hb
      push_neg at hcond
      by_cases hc : cur = []
      · subst hc
        exact Or.inl (by simp)
      · right
        have := (hcond hc).2
        omega

/-- C7: the batch planner is a pure function whose output batches
concatenate back to exactly the input in order; every batch is non-empty
and holds at most `maxDocsPerBatch` items (the document cap being
positive); a multi-item batch always fits the token budget (overhead plus
item costs); and an item whose own cost overflows the budget still appears
alone as a singleton batch (never dropped). -/
theorem C7_createDynamicBatches_spec (cfg : GeminiCfg) (images : List ImageInput)
    (hmax : 1 ≤ cfg.maxDocsPerBatch) :
    (createDynamicBatches cfg images).flatten = images ∧
    (∀ b ∈ createDynamicBatches cfg images, b ≠ []) ∧
    (∀ b ∈ createDynamicBatches cfg images, b.length ≤ cfg.maxDocsPerBatch) ∧
    (∀ b ∈ createDynamicBatches cfg images, b.length ≤ 1 ∨
      cfg.promptOverheadTokens + (b.map (docCost cfg)).sum ≤
        cfg.tokenBudgetPerRequest) ∧
    (∀ img ∈ images,
      cfg.tokenBudgetPerRequest < cfg.promptOverheadTokens + docCost cfg img →
      [img] ∈ createDynamicBatches cfg images) := by
  refine ⟨?_, ?_, ?_, ?_, ?_⟩
  · rw [createDynamicBatches, createDynamicBatchesAux_flatten]
    rfl
  · exact createDynamicBatchesAux_ne_nil cfg images [] cfg.promptOverheadTokens
  · exact createDynamicBatchesAux_len cfg hmax images [] cfg.promptOverheadTokens
      (by simp)
  · exact createDynamicBatchesAux_budget cfg images [] cfg.promptOverheadTokens
      (by simp) (Or.inl (by simp))
  · intro img hmem hbig
    exact createDynamicBatchesAux_oversize cfg images [] cfg.promptOverheadTokens
      (by simp) img hmem hbig

/-- A concrete planner configuration for the witness. -/
def cfg0 : GeminiCfg :=
  { maxDocsPerBatch := 2
    tokensPerImagePage := 100
    promptOverheadTokens := 50
    estimatedResponseTokensPerDoc := 10
    tokenBudgetPerRequest := 400
    batchQualityThreshold := 70
    maxRetriesPerImage := 3
    maxWaitTimeMs := 60000 }

/-- Concrete documents for the witness: two small ones, one oversize. -/
def imgsW : List ImageInput :=
  [⟨"a", "a.pdf", 1⟩, ⟨"b", "b.pdf", 1⟩, ⟨"c", "c.pdf", 9⟩]

/-- Witness for `C7_createDynamicBatches_spec` on a concrete input where the
third document alone exceeds the token budget. -/
theorem C7_createDynamicBatches_spec_witness :
    (createDynamicBatches cfg0 imgsW).flatten = imgsW ∧
    (∀ b ∈ createDynamicBatches cfg0 imgsW, b ≠ []) ∧
    (∀ b ∈ createDynamicBatches cfg0 imgsW, b.length ≤ cfg0.maxDocsPerBatch) ∧
    (∀ b ∈ createDynamicBatches cfg0 imgsW, b.length ≤ 1 ∨
      cfg0.promptOverheadTokens + (b.map (docCost cfg0)).sum ≤
        cfg0.tokenBudgetPerRequest) ∧
    (∀ img ∈ imgsW,
      cfg0.tokenBudgetPerRequest < cfg0.promptOverheadTokens + docCost cfg0 img →
      [img] ∈ createDynamicBatches cfg0 imgsW) :=
  C7_createDynamicBatches_spec cfg0 imgsW (by norm_num [cfg0])

/-! ## Extraction results and batch response validation (`gemini.ts`) -/

/-- `VoteItem` from `src/types`. -/
structure VoteItem : Type where
  agenda : String
  options : List String
  voted : List String
deriving DecidableEq, Repr

/-- `Individual` from `src/types`. -/
structure Individual : Type where
  name : String
  is_lessee : Bool
  birth_string : String
  residential_address : String
  contact_number : String
deriving DecidableEq, Repr

/-- The `Partial<Individual> & \x7b name \x7d` shape of the model response:
only `name` is required. -/
structure RespIndividual : Type where
  name : String
  is_lessee : Option Bool
  birth_string : Option String
  residential_address : Option String
  contact_number : Option String
deriving DecidableEq, Repr

/-- The `_meta` object of a model response; the raw confidence is an
arbitrary number. -/
structure RespMeta : Type where
  confidence : ℚ
  requires_review : Bool
  extraction_notes : List String
deriving DecidableEq, Repr

/-- `GeminiExtractionResponse` as consumed by `processImage` (numeric
confidence, per the prompt contract used in `gemini.ts`). -/
structure GeminiExtractionResponse : Type where
  document_title : String
  property_number : String
  individual : RespIndividual
  votes : List VoteItem
  _meta : RespMeta
deriving DecidableEq, Repr

/-- One document of a batch response, carrying its `source_index`
back-reference (a JSON integer, possibly out of range). -/
structure BatchDoc : Type where
  source_index : ℤ
  document_title : String
  property_number : String
  individual : RespIndividual
  votes : List VoteItem
  _meta : RespMeta
deriving DecidableEq, Repr

/-- `GeminiBatchExtractionResponse` as consumed by `processBatch`. -/
structure GeminiBatchExtractionResponse : Type where
  documents : List BatchDoc
deriving DecidableEq, Repr

/-- The metadata stored on an `ExtractedResolution` (`processed_at`, an ISO
timestamp string in the source, is modelled as the sample time). -/
structure ExtractionMeta : Type where
  confidence : ℤ
  requires_review : Bool
  extraction_notes : List String
  source_file : String
  page_count : ℕ
  processed_at : ℚ
deriving DecidableEq, Repr

/-- `ExtractedResolution` from `src/types`. -/
structure ExtractedResolution : Type where
  document_title : String
  property_number : String
  individual : Individual
  votes : List VoteItem
  _meta : ExtractionMeta
deriving DecidableEq, Repr

/-- JavaScript `Math.round`: half-up rounding. -/
def jsRound (x : ℚ) : ℤ :=
  ⌊x + 1 / 2⌋

/-- The confidence clamp used verbatim on both extraction paths:
`Math.round(Math.max(0, Math.min(100, c)))`. -/
def clampConfidence (c : ℚ) : ℤ :=
  jsRound (max 0 (min 100 c))

/-- The single-document result construction at the end of `processImage`. -/
def toExtractedSingle (resp : GeminiExtractionResponse) (img : ImageInput)
    (now : ℚ) : ExtractedResolution :=
  { document_title := resp.document_title
    property_number := resp.property_number
    individual :=
      { name := resp.individual.name
        is_lessee := resp.individual.is_lessee.getD false
        birth_string := resp.individual.birth_string.getD ""
        residential_address := resp.individual.residential_address.getD ""
        contact_number := resp.individual.contact_number.getD "" }
    votes := resp.votes
    _meta :=
      { confidence := clampConfidence resp._meta.confidence
        requires_review := resp._meta.requires_review
        extraction_notes := resp._meta.extraction_notes
        source_file := img.sourceFile
        page_count := img.pageCount
        processed_at := now } }

/-- `BatchResultItem` from `gemini.ts`. -/
structure BatchResultItem : Type where
  result : ExtractedResolution
  sourceIndex : ℤ
deriving DecidableEq, Repr

/-- JavaScript array indexing with a possibly negative integer index. -/
def intGet? {α : Type} (l : List α) (i : ℤ) : Option α :=
  if 0 ≤ i then l[i.toNat]? else none

/-- The per-document mapping at the end of `processBatch` (the source's
`documents.map` whose body can throw). -/
def mapBatchDocs (f : BatchDoc → Except String BatchResultItem) :
    List BatchDoc → Except String (List BatchResultItem)
  | [] => .ok []
  | d :: rest =>
    match f d with
    | .error e => .error e
    | .ok r =>
      match mapBatchDocs f rest with
      | .error e => .error e
      | .ok rs => .ok (r :: rs)

/-- The body of that map: resolve the back-reference (throwing on an
out-of-range index), clamp the confidence, and build the result. -/
def buildBatchItem (images : List ImageInput) (now : ℚ) (doc : BatchDoc) :
    Except String BatchResultItem :=
  match intGet? images doc.source_index with
  | none => .error ("Invalid source_index " ++ toString doc.source_index)
  | some image =>
    .ok
      { result :=
          { document_title := doc.document_title
            property_number := doc.property_number
            individual :=
              { name := doc.individual.name
                is_lessee := doc.individual.is_lessee.getD false
                birth_string := doc.individual.birth_string.getD ""
                residential_address := doc.individual.residential_address.getD ""
                contact_number := doc.individual.contact_number.getD "" }
            votes := doc.votes
            _meta :=
              { confidence := clampConfidence doc._meta.confidence
                requires_review := doc._meta.requires_review
                extraction_notes := doc._meta.extraction_notes
                source_file := image.sourceFile
                page_count := image.pageCount
                processed_at := now } }
        sourceIndex := doc.source_index }

/-- The validation and mapping stage of `processBatch` (everything after the
retried model call): count check, `source_index` coverage check, then the
per-document mapping. -/
def processBatchValidate (images : List ImageInput)
    (resp : GeminiBatchExtractionResponse) (now : ℚ) :
    Except String (List BatchResultItem) :=
  if resp.documents.length ≠ images.length then
    .error ("Batch response mismatch: expected " ++ toString images.length ++
      " documents but received " ++ toString resp.documents.length)
  else
    match (List.range images.length).find?
        (fun i => !(decide (Int.ofNat i ∈ resp.documents.map (fun d => d.source_index)))) with
    | some i => .error ("Batch response missing source_index " ++ toString i)
    | none => mapBatchDocs (buildBatchItem images now) resp.documents

/-- C1: a batch response whose document count differs from the batch size,
or that misses any expected `sourceIndex` in `[0, batchSize)`, makes
`processBatch` throw; no document of such a response is ever accepted (the
error is produced before any result is built, and the orchestrator's batch
acceptance loop only runs on a returned list). -/
theorem C1_batch_coverage_rejects (images : List ImageInput)
    (resp : GeminiBatchExtractionResponse) (now : ℚ)
    (h : resp.documents.length ≠ images.length ∨
      ∃ i, i < images.length ∧
        (i : ℤ) ∉ resp.documents.map (fun d => d.source_index)) :
    ∃ msg, processBatchValidate images resp now = .error msg := by
  by_cases hlen : resp.documents.length ≠ images.length
  · exact ⟨_, by rw [processBatchValidate, if_pos hlen]⟩
  · rcases h with h | ⟨i, hi, hmem⟩
    · exact absurd h hlen
    · have hfind : ((List.range images.length).find?
          (fun i => !(decide (Int.ofNat i ∈
            resp.documents.map (fun d => d.source_index))))).isSome := by
        rw [List.find?_isSome]
        refine ⟨i, List.mem_range.mpr hi, ?_⟩
        simpa using hmem
      obtain ⟨j, hj⟩ := Option.isSome_iff_exists.mp hfind
      refine ⟨"Batch response missing source_index " ++ toString j, ?_⟩
      rw [processBatchValidate, if_neg hlen]
      rw [hj]

theorem clampConfidence_bounds (c : ℚ) :
    0 ≤ clampConfidence c ∧ clampConfidence c ≤ 100 := by
  unfold clampConfidence jsRound
  constructor
  · rw [Int.le_floor]
    have h1 : (0:ℚ) ≤ max 0 (min 100 c) := le_max_left 0 _
    push_cast
    linarith
  · rw [Int.floor_le_iff]
    have h1 : max 0 (min 100 c) ≤ 100 :=
      max_le (by norm_num) (min_le_left 100 c)
    push_cast
    linarith

theorem mapBatchDocs_ok_mem (f : BatchDoc → Except String BatchResultItem)
    (P : BatchResultItem → Prop) (hf : ∀ d r, f d = .ok r → P r) :
    ∀ (l : List BatchDoc) (out : List BatchResultItem),
    mapBatchDocs f l = .ok out → ∀ r ∈ out, P r := by
  intro l
  induction l with
  | nil =>
    intro out hout r hr
    simp only [mapBatchDocs] at hout
    cases hout
    exact absurd hr (List.not_mem_nil r)
  | cons d rest ih =>
    intro out hout r hr
    simp only [mapBatchDocs] at hout
    cases hfd : f d with
    | error e => rw [hfd] at hout; cases hout
    | ok r₁ =>
      rw [hfd] at hout
      cases hrest : mapBatchDocs f rest with
      | error e => rw [hrest] at hout; cases hout
      | ok rs =>
        rw [hrest] at hout
        cases hout
        rcases List.mem_cons.mp hr with rfl | hr2
        · exact hf d r hfd
        · exact ih rs hrest r hr2

/-- C8: on both extraction paths the stored confidence is an integer clamped
into `[0,100]`, whatever raw value the model returned: the single-document
result built by `processImage`, and every item of a successful
`processBatch` validation. -/
theorem C8_confidence_clamped (resp : GeminiExtractionResponse) (img : ImageInput)
    (now : ℚ) (images : List ImageInput) (bresp : GeminiBatchExtractionResponse)
    (out : List BatchResultItem)
    (hok : processBatchValidate images bresp now = .ok out) :
    (0 ≤ (toExtractedSingle resp img now)._meta.confidence ∧
      (toExtractedSingle resp img now)._meta.confidence ≤ 100) ∧
    (∀ item ∈ out, 0 ≤ item.result._meta.confidence ∧
      item.result._meta.confidence ≤ 100) := by
  constructor
  · exact clampConfidence_bounds resp._meta.confidence
  · intro item hitem
    rw [processBatchValidate] at hok
    split at hok
    · cases hok
    · split at hok
      · cases hok
      · refine mapBatchDocs_ok_mem (buildBatchItem images now)
          (fun r => 0 ≤ r.result._meta.confidence ∧ r.result._meta.confidence ≤ 100)
          ?_ bresp.documents out hok item hitem
        intro d r hdr
        rw [buildBatchItem] at hdr
        split at hdr
        · cases hdr
        · cases hdr
          exact clampConfidence_bounds d._meta.confidence

/-- Two concrete documents for the batch witnesses. -/
def imgsPair : List ImageInput :=
  [⟨"a", "a.pdf", 1⟩, ⟨"b", "b.pdf", 1⟩]

/-- A concrete batch response document. -/
def bdocW (i : ℤ) (c : ℚ) : BatchDoc :=
  { source_index := i
    document_title := "t1"
    property_number := "101"
    individual := ⟨"kim", none, none, none, none⟩
    votes := []
    _meta := ⟨c, false, []⟩ }

/-- A batch response with the right count but both documents labelled
`source_index = 1` (index 0 missing) — the spec's coverage scenario. -/
def brespDupW : GeminiBatchExtractionResponse :=
  ⟨[bdocW 1 95, bdocW 1 95]⟩

/-- Witness for `C1_batch_coverage_rejects`: two input documents, two
returned documents both labelled `source_index = 1`. -/
theorem C1_batch_coverage_rejects_witness :
    ∃ msg, processBatchValidate imgsPair brespDupW 0 = .error msg :=
  C1_batch_coverage_rejects imgsPair brespDupW 0
    (Or.inr ⟨0, by norm_num [imgsPair], by decide⟩)

/-- A concrete single-document response with out-of-range confidence 150. -/
def respW : GeminiExtractionResponse :=
  { document_title := "t1"
    property_number := "101"
    individual := ⟨"kim", none, none, none, none⟩
    votes := []
    _meta := ⟨150, false, []⟩ }

/-- A structurally valid single-document batch response with confidence
150. -/
def brespOkW : GeminiBatchExtractionResponse :=
  ⟨[bdocW 0 150]⟩

/-- The single input list for the successful-batch witness. -/
def imgSingleW : List ImageInput :=
  [⟨"a", "a.pdf", 1⟩]

/-- The output `processBatchValidate` produces on `brespOkW`: confidence
clamped from 150 down to 100. -/
def outW : List BatchResultItem :=
  [{ result :=
      { document_title := "t1"
        property_number := "101"
        individual := ⟨"kim", false, "", "", ""⟩
        votes := []
        _meta := ⟨100, false, [], "a.pdf", 1, 0⟩ }
     sourceIndex := 0 }]

/-- Witness for `C8_confidence_clamped`: raw confidence 150 is stored as
100 on both paths. -/
theorem C8_confidence_clamped_witness :
    ((0 ≤ (toExtractedSingle respW ⟨"a", "a.pdf", 1⟩ 0)._meta.confidence ∧
      (toExtractedSingle respW ⟨"a", "a.pdf", 1⟩ 0)._meta.confidence ≤ 100) ∧
    (∀ item ∈ outW, 0 ≤ item.result._meta.confidence ∧
      item.result._meta.confidence ≤ 100)) :=
  C8_confidence_clamped respW ⟨"a", "a.pdf", 1⟩ 0 imgSingleW brespOkW outW
    (by norm_num [processBatchValidate, mapBatchDocs, buildBatchItem, intGet?,
      clampConfidence, jsRound, brespOkW, bdocW, imgSingleW, outW, List.find?,
      List.range, List.range.loop])

/-! ## Retry policy (`src/utils/retry.ts`, `src/constants`) -/

/-- `RETRY_CONFIG.maxRetries` from `src/constants`. -/
def RETRY_CONFIG_maxRetries : ℕ := 3

/-- `RETRY_CONFIG.baseDelayMs` from `src/constants`. -/
def RETRY_CONFIG_baseDelayMs : ℚ := 1000

/-- `RETRY_CONFIG.maxDelayMs` from `src/constants`. -/
def RETRY_CONFIG_maxDelayMs : ℚ := 30000

/-- `RETRY_CONFIG.retryableStatusCodes` from `src/constants`. -/
def RETRY_CONFIG_retryableStatusCodes : List ℕ := [429, 500, 502, 503, 504]

/-- A thrown JS `Error`, reduced to its message (the only part the
classifier reads). -/
structure JsError : Type where
  message : String
deriving DecidableEq, Repr

/-- JS `String.prototype.toLowerCase` (character-wise). -/
def toLowerStr (s : String) : String :=
  ⟨s.data.map Char.toLower⟩

/-- JS `String.prototype.includes`: substring containment. -/
def strIncludes (s pat : String) : Bool :=
  (List.range (s.data.length + 1)).any (fun i => pat.data.isPrefixOf (s.data.drop i))

/-- `isRetryableError` from `retry.ts`: rate-limit phrases, configured
retryable status codes, or transient network phrases in the lowercased
message. -/
def isRetryableError (e : JsError) : Bool :=
  let message := toLowerStr e.message
  if strIncludes message "429" || strIncludes message "rate limit" ||
      strIncludes message "quota" then true
  else if RETRY_CONFIG_retryableStatusCodes.any
      (fun code => strIncludes message (toString code)) then true
  else if strIncludes message "network" || strIncludes message "fetch" ||
      strIncludes message "timeout" then true
  else false

/-- The exponential backoff delay of `withRetry`:
`min(baseDelayMs * 2 ^ attempt, maxDelayMs)`. -/
def retryDelay (baseDelayMs maxDelayMs : ℚ) (attempt : ℕ) : ℚ :=
  min (baseDelayMs * 2 ^ attempt) maxDelayMs

/-- Outcome of a `withRetry` run. -/
inductive RetryOutcome (α : Type) : Type
  | ok (a : α)
  | aborted
  | failed (e : JsError)
deriving DecidableEq

/-- The attempt loop of `withRetry` from `retry.ts`, driven by an oracle
giving each attempt's outcome and an abort flag sampled before each
attempt; `remaining = maxRetries - attempt` counts the attempts still
allowed after this one.  The returned list records the backoff sleeps, in
order.  At `remaining = 0` (`attempt === maxRetries`) any error
propagates. -/
def withRetryGo {α : Type} (outcomes : ℕ → Except JsError α) (abortAt : ℕ → Bool)
    (baseDelayMs maxDelayMs : ℚ) : ℕ → ℕ → RetryOutcome α × List ℚ
  | 0, attempt =>
    if abortAt attempt then (.aborted, [])
    else
      match outcomes attempt with
      | .ok a => (.ok a, [])
      | .error e => (.failed e, [])
  | r + 1, attempt =>
    if abortAt attempt then (.aborted, [])
    else
      match outcomes attempt with
      | .ok a => (.ok a, [])
      | .error e =>
        if ¬ isRetryableError e then (.failed e, [])
        else
          let rest := withRetryGo outcomes abortAt baseDelayMs maxDelayMs r (attempt + 1)
          (rest.1, retryDelay baseDelayMs maxDelayMs attempt :: rest.2)

/-- `withRetry` from `retry.ts`. -/
def withRetry {α : Type} (outcomes : ℕ → Except JsError α) (abortAt : ℕ → Bool)
    (maxRetries : ℕ) (baseDelayMs maxDelayMs : ℚ) : RetryOutcome α × List ℚ :=
  withRetryGo outcomes abortAt baseDelayMs maxDelayMs maxRetries 0

theorem withRetryGo_abort {α : Type} (outcomes : ℕ → Except JsError α)
    (abortAt : ℕ → Bool) (base maxD : ℚ) (rem att : ℕ)
    (h : abortAt att = true) :
    withRetryGo outcomes abortAt base maxD rem att = (.aborted, []) := by
  cases rem <;> simp [withRetryGo, h]

theorem withRetryGo_ok {α : Type} (outcomes : ℕ → Except JsError α)
    (abortAt : ℕ → Bool) (base maxD : ℚ) (rem att : ℕ) (v : α)
    (ha : abortAt att = false) (ho : outcomes att = .ok v) :
    withRetryGo outcomes abortAt base maxD rem att = (.ok v, []) := by
  cases rem <;> simp [withRetryGo, ha, ho]

theorem withRetryGo_fatal {α : Type} (outcomes : ℕ → Except JsError α)
    (abortAt : ℕ → Bool) (base maxD : ℚ) (rem att : ℕ) (e : JsError)
    (ha : abortAt att = false) (ho : outcomes att = .error e)
    (hr : isRetryableError e = false) :
    withRetryGo outcomes abortAt base maxD rem att = (.failed e, []) := by
  cases rem <;> simp [withRetryGo, ha, ho, hr]

theorem withRetryGo_last {α : Type} (outcomes : ℕ → Except JsError α)
    (abortAt : ℕ → Bool) (base maxD : ℚ) (att : ℕ) (e : JsError)
    (ha : abortAt att = false) (ho : outcomes att = .error e) :
    withRetryGo outcomes abortAt base maxD 0 att = (.failed e, []) := by
  simp [withRetryGo, ha, ho]

theorem withRetryGo_retry {α : Type} (outcomes : ℕ → Except JsError α)
    (abortAt : ℕ → Bool) (base maxD : ℚ) (r att : ℕ) (e : JsError)
    (ha : abortAt att = false) (ho : outcomes att = .error e)
    (hr : isRetryableError e = true) :
    withRetryGo outcomes abortAt base maxD (r + 1) att =
      ((withRetryGo outcomes abortAt base maxD r (att + 1)).1,
        retryDelay base maxD att ::
          (withRetryGo outcomes abortAt base maxD r (att + 1)).2) := by
  simp [withRetryGo, ha, ho, hr]

theorem withRetryGo_all_retryable {α : Type} (outcomes : ℕ → Except JsError α)
    (abortAt : ℕ → Bool) (base maxD : ℚ) :
    ∀ (rem att : ℕ),
    (∀ j, att ≤ j → j ≤ att + rem → abortAt j = false) →
    (∀ j, att ≤ j → j ≤ att + rem →
      ∃ e, outcomes j = .error e ∧ isRetryableError e = true) →
    ∃ e, outcomes (att + rem) = .error e ∧
      withRetryGo outcomes abortAt base maxD rem att =
        (.failed e, (List.range rem).map (fun i => retryDelay base maxD (att + i))) := by
  intro rem
  induction rem with
  | zero =>
    intro att hab herr
    obtain ⟨e, he, _⟩ := herr att (le_refl att) (by omega)
    exact ⟨e, by simpa using he,
      withRetryGo_last outcomes abortAt base maxD att e
        (hab att (le_refl att) (by omega)) he⟩
  | succ r ih =>
    intro att hab herr
    obtain ⟨e₀, he₀, hr₀⟩ := herr att (le_refl att) (by omega)
    obtain ⟨e, he, hgo⟩ := ih (att + 1) (fun j h1 h2 => hab j (by omega) (by omega))
      (fun j h1 h2 => herr j (by omega) (by omega))
    refine ⟨e, by rw [show att + (r + 1) = att + 1 + r by omega]; exact he, ?_⟩
    rw [withRetryGo_retry outcomes abortAt base maxD r att e₀
      (hab att (le_refl att) (by omega)) he₀ hr₀, hgo]
    refine Prod.ext rfl ?_
    show retryDelay base maxD att :: _ = _
    rw [List.range_succ_eq_map, List.map_cons, List.map_map]
    refine congrArg₂ List.cons (by rw [Nat.add_zero]) ?_
    refine List.map_congr_left ?_
    intro i _
    show retryDelay base maxD (att + 1 + i) = retryDelay base maxD (att + (i + 1))
    rw [show att + 1 + i = att + (i + 1) by omega]

/-- C9: `withRetry` checks cancellation before each attempt and aborts
immediately; a successful attempt returns at once with no sleeps; a
non-retryable error propagates immediately; a retryable error before the
final allowed attempt sleeps `min(baseDelay * 2 ^ attempt, maxDelay)` and
retries; an error on the final allowed attempt propagates; and when every
attempt fails retryably with no cancellation, the last error propagates
after exactly the exponential-backoff sleep sequence. -/
theorem C9_withRetry_spec {α : Type} (outcomes : ℕ → Except JsError α)
    (abortAt : ℕ → Bool) (base maxD : ℚ) (maxRetries : ℕ) :
    (∀ rem att, abortAt att = true →
      withRetryGo outcomes abortAt base maxD rem att = (.aborted, [])) ∧
    (∀ rem att v, abortAt att = false → outcomes att = .ok v →
      withRetryGo outcomes abortAt base maxD rem att = (.ok v, [])) ∧
    (∀ rem att e, abortAt att = false → outcomes att = .error e →
      isRetryableError e = false →
      withRetryGo outcomes abortAt base maxD rem att = (.failed e, [])) ∧
    (∀ r att e, abortAt att = false → outcomes att = .error e →
      isRetryableError e = true →
      withRetryGo outcomes abortAt base maxD (r + 1) att =
        ((withRetryGo outcomes abortAt base maxD r (att + 1)).1,
          min (base * 2 ^ att) maxD ::
            (withRetryGo outcomes abortAt base maxD r (att + 1)).2)) ∧
    (∀ att e, abortAt att = false → outcomes att = .error e →
      withRetryGo outcomes abortAt base maxD 0 att = (.failed e, [])) ∧
    ((∀ j, j ≤ maxRetries → abortAt j = false) →
      (∀ j, j ≤ maxRetries →
        ∃ e, outcomes j = .error e ∧ isRetryableError e = true) →
      ∃ e, outcomes maxRetries = .error e ∧
        withRetry outcomes abortAt maxRetries base maxD =
          (.failed e, (List.range maxRetries).map (retryDelay base maxD))) := by
  refine ⟨withRetryGo_abort outcomes abortAt base maxD,
    withRetryGo_ok outcomes abortAt base maxD,
    withRetryGo_fatal outcomes abortAt base maxD,
    fun r att e ha ho hr => withRetryGo_retry outcomes abortAt base maxD r att e ha ho hr,
    withRetryGo_last outcomes abortAt base maxD, ?_⟩
  intro hab herr
  obtain ⟨e, he, hgo⟩ := withRetryGo_all_retryable outcomes abortAt base maxD
    maxRetries 0 (fun j _ h2 => hab j (by omega)) (fun j _ h2 => herr j (by omega))
  refine ⟨e, by simpa using he, ?_⟩
  rw [withRetry, hgo]
  refine Prod.ext rfl ?_
  show _ = List.map (retryDelay base maxD) (List.range maxRetries)
  exact List.map_congr_left (fun i _ => by rw [Nat.zero_add])

/-- Witness for `C9_withRetry_spec`: a run in which every attempt fails
with a 429 message — the closing conjunct yields the error after the
backoff sleeps 1000, 2000, 4000. -/
theorem C9_withRetry_spec_witness :
    ∃ e, (fun _ => (Except.error ⟨"429 rate limit"⟩ : Except JsError Unit)) 3 =
        .error e ∧
      withRetry (fun _ => (Except.error ⟨"429 rate limit"⟩ : Except JsError Unit))
          (fun _ => false) 3 1000 30000 =
        (.failed e, (List.range 3).map (retryDelay 1000 30000)) :=
  (C9_withRetry_spec (fun _ => (Except.error ⟨"429 rate limit"⟩ : Except JsError Unit))
    (fun _ => false) 1000 30000 3).2.2.2.2.2
    (fun j _ => rfl)
    (fun j _ => ⟨⟨"429 rate limit"⟩, rfl, by decide⟩)

/-! ## Dispatch orchestrator (`processFiles` and helpers in `gemini.ts`)

Exceptions are modelled with `Except Exc`; every function returns the
(unconditionally updated) context alongside, since JS exceptions do not
roll back mutations.  External nondeterminism — the model's responses, the
abort signal and the wall clock — is supplied by oracles indexed by
monotone counters threaded through the context. -/

/-- A JS exception as seen by the orchestrator: the distinguished
`AbortError` or an ordinary error reduced to its message. -/
inductive Exc : Type
  | aborted
  | failure (msg : String)
deriving DecidableEq, Repr

/-- `error.message` (a `DOMException("Aborted", "AbortError")` carries the
message `"Aborted"`). -/
def excMessage : Exc → String
  | .aborted => "Aborted"
  | .failure m => m

/-- `isRateLimitError` from `gemini.ts`. -/
def isRateLimitError (e : Exc) : Bool :=
  let message := toLowerStr (excMessage e)
  strIncludes message "rate limit" || strIncludes message "quota" ||
    strIncludes message "429" || strIncludes message "resource exhausted"

/-- `FileProcessingStatus` from `src/types`. -/
inductive FileStatus : Type
  | pending
  | processing
  | done (result : ExtractedResolution)
  | error (msg : String)
deriving DecidableEq, Repr

/-- The orchestrator's environment: limiter environment, the extraction
client oracles (indexed by a call counter), the cancellation signal
(sampled at each check point) and the wall clock (sampled at each
`Date.now()` site). -/
structure OrchEnv : Type where
  rl : RLEnv
  genSingle : ℕ → Except JsError GeminiExtractionResponse
  genBatch : ℕ → Except JsError GeminiBatchExtractionResponse
  abortAt : ℕ → Bool
  timeAt : ℕ → ℚ

/-- The mutable context of a `processFiles` run (`ProcessingContext` plus
the oracle counters). -/
structure Ctx : Type where
  rl : RLState
  results : List ExtractedResolution
  statuses : String → Option FileStatus
  processedIds : List String
  callCtr : ℕ
  checkCtr : ℕ
  tick : ℕ

/-- One `Date.now()` sample. -/
def sampleNow (env : OrchEnv) (ctx : Ctx) : ℚ × Ctx :=
  (env.timeAt ctx.tick, { ctx with tick := ctx.tick + 1 })

/-- One `signal?.aborted` check. -/
def checkAborted (env : OrchEnv) (ctx : Ctx) : Bool × Ctx :=
  (env.abortAt ctx.checkCtr, { ctx with checkCtr := ctx.checkCtr + 1 })

/-- A progress emission: `createProgress` snapshots the statuses (a copy
handed to the external callback, which is opaque here) and calls
`getKeyStatuses`, refilling every bucket as a side effect. -/
def emitProgress (env : OrchEnv) (ctx : Ctx) : Ctx :=
  let s := sampleNow env ctx
  let r := getKeyStatuses env.rl s.2.rl s.1
  { s.2 with rl := r.2 }

/-- `ctx.statuses.set(id, st)`. -/
def setStatus (ctx : Ctx) (id : String) (st : FileStatus) : Ctx :=
  { ctx with statuses := setKey ctx.statuses id st }

/-- `ctx.processedIds.add(id)`. -/
def addProcessed (ctx : Ctx) (id : String) : Ctx :=
  { ctx with processedIds := id :: ctx.processedIds }

/-- The operation `withRetry` wraps in `processImage`: check the signal,
then call the model (`generateContent` + JSON parse, supplied by the
oracle). -/
def attemptSingle (env : OrchEnv) (ctx : Ctx) :
    Except Exc GeminiExtractionResponse × Ctx :=
  let c := checkAborted env ctx
  if c.1 then (.error .aborted, c.2)
  else
    match env.genSingle c.2.callCtr with
    | .ok resp => (.ok resp, { c.2 with callCtr := c.2.callCtr + 1 })
    | .error e => (.error (.failure e.message), { c.2 with callCtr := c.2.callCtr + 1 })

/-- The batch counterpart (`processBatch`'s wrapped operation). -/
def attemptBatch (env : OrchEnv) (ctx : Ctx) :
    Except Exc GeminiBatchExtractionResponse × Ctx :=
  let c := checkAborted env ctx
  if c.1 then (.error .aborted, c.2)
  else
    match env.genBatch c.2.callCtr with
    | .ok resp => (.ok resp, { c.2 with callCtr := c.2.callCtr + 1 })
    | .error e => (.error (.failure e.message), { c.2 with callCtr := c.2.callCtr + 1 })

/-- `withRetry` from `retry.ts` applied to a stateful operation: the abort
check before each attempt, immediate propagation of non-retryable errors
(an `AbortError`'s message matches no retryable pattern), and retry up to
the ceiling; on the final attempt any error propagates. -/
def withRetryM {α : Type} (env : OrchEnv) (fn : Ctx → Except Exc α × Ctx) :
    ℕ → Ctx → Except Exc α × Ctx
  | 0, ctx =>
    let c := checkAborted env ctx
    if c.1 then (.error .aborted, c.2)
    else fn c.2
  | r + 1, ctx =>
    let c := checkAborted env ctx
    if c.1 then (.error .aborted, c.2)
    else
      match fn c.2 with
      | (.ok a, ctx) => (.ok a, ctx)
      | (.error e, ctx) =>
        if isRetryableError ⟨excMessage e⟩ then withRetryM env fn r ctx
        else (.error e, ctx)

/-- `processImage` from `gemini.ts`: the retried model call followed by the
clamped result construction. -/
def processImageM (env : OrchEnv) (img : ImageInput) (ctx : Ctx) :
    Except Exc ExtractedResolution × Ctx :=
  match withRetryM env (attemptSingle env) RETRY_CONFIG_maxRetries ctx with
  | (.error e, ctx) => (.error e, ctx)
  | (.ok resp, ctx) =>
    let s := sampleNow env ctx
    (.ok (toExtractedSingle resp img s.1), s.2)

/-- `processBatch` from `gemini.ts`: the retried batch call followed by
count/coverage validation and the per-document mapping. -/
def processBatchM (env : OrchEnv) (images : List ImageInput) (ctx : Ctx) :
    Except Exc (List BatchResultItem) × Ctx :=
  match withRetryM env (attemptBatch env) RETRY_CONFIG_maxRetries ctx with
  | (.error e, ctx) => (.error e, ctx)
  | (.ok resp, ctx) =>
    let s := sampleNow env ctx
    match processBatchValidate images resp s.1 with
    | .error msg => (.error (.failure msg), s.2)
    | .ok items => (.ok items, s.2)

/-- `acquireKey` from `gemini.ts`: bounded poll for an available key; `none`
when the wait exceeds the tolerable bound or the retry budget runs out. -/
def acquireKeyM (env : OrchEnv) (cfg : GeminiCfg) :
    ℕ → Ctx → Except Exc (Option ApiKeyEntry) × Ctx
  | 0, ctx => (.ok none, ctx)
  | fuel + 1, ctx =>
    let c := checkAborted env ctx
    if c.1 then (.error .aborted, c.2)
    else
      let s := sampleNow env c.2
      let g := getBestKey env.rl s.2.rl s.1
      match g.1 with
      | some k => (.ok (some k), { s.2 with rl := g.2 })
      | none =>
        let s2 := sampleNow env { s.2 with rl := g.2 }
        let w := getWaitTime env.rl s2.2.rl s2.1
        if cfg.maxWaitTimeMs < w.1 then (.ok none, { s2.2 with rl := w.2 })
        else acquireKeyM env cfg fuel (emitProgress env { s2.2 with rl := w.2 })

/-- The exits of `processImageWithRateLimit`'s while loop. -/
inductive LoopExit : Type
  | success
  | broke
  | noKey
  | fuelOut
deriving DecidableEq, Repr

/-- The `while (!success && retryCount < maxRetriesPerImage)` loop of
`processImageWithRateLimit`.  The `catch` clause swallows every exception
of the attempt — including an `AbortError`, whose message is not
rate-limit-classified, so it marks the item failed (`broke`). -/
def pIWRLoop (env : OrchEnv) (cfg : GeminiCfg) (img : ImageInput) :
    ℕ → Ctx → Except Exc LoopExit × Ctx
  | 0, ctx => (.ok .fuelOut, ctx)
  | fuel + 1, ctx =>
    let c := checkAborted env ctx
    if c.1 then (.error .aborted, c.2)
    else
      match acquireKeyM env cfg cfg.maxRetriesPerImage c.2 with
      | (.error e, ctx) => (.error e, ctx)
      | (.ok none, ctx) =>
        let ctx := setStatus ctx img.id
          (.error "All API keys exhausted. Please try again later or add more keys.")
        (.ok .noKey, addProcessed ctx img.id)
      | (.ok (some bestKey), ctx) =>
        let s := sampleNow env ctx
        let cr := consumeRequest env.rl s.2.rl bestKey.id s.1
        match processImageM env img { s.2 with rl := cr.2 } with
        | (.ok result, ctx) =>
          let ctx := { ctx with results := ctx.results ++ [result] }
          let ctx := setStatus ctx img.id (.done result)
          (.ok .success, addProcessed ctx img.id)
        | (.error e, ctx) =>
          if isRateLimitError e then
            let s2 := sampleNow env ctx
            pIWRLoop env cfg img fuel { s2.2 with rl := markExhausted s2.2.rl bestKey.id s2.1 }
          else
            let ctx := setStatus ctx img.id (.error (excMessage e))
            (.ok .broke, addProcessed ctx img.id)

/-- `processImageWithRateLimit` from `gemini.ts`: skip already-dispatched
items, mark processing, run the loop, patch a still-`processing` status
after an unsuccessful loop, and emit the final snapshot (skipped by the
early no-key return). -/
def processImageWithRateLimitM (env : OrchEnv) (cfg : GeminiCfg)
    (img : ImageInput) (ctx : Ctx) : Except Exc Unit × Ctx :=
  if img.id ∈ ctx.processedIds then (.ok (), ctx)
  else
    let ctx := setStatus ctx img.id .processing
    let ctx := emitProgress env ctx
    match pIWRLoop env cfg img cfg.maxRetriesPerImage ctx with
    | (.error e, ctx) => (.error e, ctx)
    | (.ok LoopExit.noKey, ctx) => (.ok (), ctx)
    | (.ok LoopExit.success, ctx) => (.ok (), emitProgress env ctx)
    | (.ok _, ctx) =>
      let ctx :=
        if ctx.statuses img.id = some .processing then
          addProcessed
            (setStatus ctx img.id (.error "Rate limit exceeded. Please try again later."))
            img.id
        else ctx
      (.ok (), emitProgress env ctx)

/-- Marking every not-yet-dispatched document of a batch as `processing`. -/
def markBatchProcessing (batch : List ImageInput) (ctx : Ctx) : Ctx :=
  batch.foldl
    (fun ctx img =>
      if img.id ∈ ctx.processedIds then ctx else setStatus ctx img.id .processing)
    ctx

/-- Failing every not-yet-dispatched document of a batch when no key is
available. -/
def failBatch (batch : List ImageInput) (ctx : Ctx) : Ctx :=
  batch.foldl
    (fun ctx img =>
      if img.id ∈ ctx.processedIds then ctx
      else
        addProcessed
          (setStatus ctx img.id
            (.error "All API keys exhausted. Please try again later or add more keys."))
          img.id)
    ctx

/-- The quality-validation loop over a successful batch: accept documents
at or above `BATCH_QUALITY_THRESHOLD` as done, collect the `sourceIndex`
of low-confidence ones. -/
def acceptBatchResults (cfg : GeminiCfg) (batch : List ImageInput)
    (items : List BatchResultItem) (ctx : Ctx) : List ℤ × Ctx :=
  items.foldl
    (fun acc item =>
      match intGet? batch item.sourceIndex with
      | none => acc
      | some matchingImage =>
        if item.result._meta.confidence < cfg.batchQualityThreshold then
          (acc.1 ++ [item.sourceIndex], acc.2)
        else
          let ctx := { acc.2 with results := acc.2.results ++ [item.result] }
          let ctx := setStatus ctx matchingImage.id (.done item.result)
          (acc.1, addProcessed ctx matchingImage.id))
    ([], ctx)

/-- Individual re-processing of the collected low-confidence documents
(still inside the `try` block). -/
def reprocessLowM (env : OrchEnv) (cfg : GeminiCfg) (batch : List ImageInput) :
    List ℤ → Ctx → Except Exc Unit × Ctx
  | [], ctx => (.ok (), ctx)
  | idx :: rest, ctx =>
    match intGet? batch idx with
    | none => reprocessLowM env cfg batch rest ctx
    | some img =>
      if img.id ∈ ctx.processedIds then reprocessLowM env cfg batch rest ctx
      else
        match processImageWithRateLimitM env cfg img ctx with
        | (.error e, ctx) => (.error e, ctx)
        | (.ok _, ctx) => reprocessLowM env cfg batch rest ctx

/-- The single-item fallback loop over the unresolved documents of a
batch (outside the `try` block). -/
def fallbackM (env : OrchEnv) (cfg : GeminiCfg) :
    List ImageInput → Ctx → Except Exc Unit × Ctx
  | [], ctx => (.ok (), ctx)
  | img :: rest, ctx =>
    if img.id ∈ ctx.processedIds then fallbackM env cfg rest ctx
    else
      match processImageWithRateLimitM env cfg img ctx with
      | (.error e, ctx) => (.error e, ctx)
      | (.ok _, ctx) => fallbackM env cfg rest ctx

/-- The `try` block of the multi-document path: consume a token (result
ignored), run the batch call, accept high-confidence results, re-process
the low-confidence ones. -/
def runBatchM (env : OrchEnv) (cfg : GeminiCfg) (batch : List ImageInput)
    (bestKey : ApiKeyEntry) (ctx : Ctx) : Except Exc Unit × Ctx :=
  let s := sampleNow env ctx
  let cr := consumeRequest env.rl s.2.rl bestKey.id s.1
  match processBatchM env batch { s.2 with rl := cr.2 } with
  | (.error e, ctx) => (.error e, ctx)
  | (.ok items, ctx) =>
    let ac := acceptBatchResults cfg batch items ctx
    reprocessLowM env cfg batch ac.1 ac.2

/-- The batch loop of `processFiles`: abort check, mark processing, emit,
then the single-document path for singleton batches or the batch path
(with `catch` falling back to per-item dispatch) otherwise. -/
def processBatchesM (env : OrchEnv) (cfg : GeminiCfg) :
    List (List ImageInput) → Ctx → Except Exc Unit × Ctx
  | [], ctx => (.ok (), ctx)
  | batch :: rest, ctx =>
    let c := checkAborted env ctx
    if c.1 then (.error .aborted, c.2)
    else
      let ctx := emitProgress env (markBatchProcessing batch c.2)
      match batch with
      | [img] =>
        match processImageWithRateLimitM env cfg img ctx with
        | (.error e, ctx) => (.error e, ctx)
        | (.ok _, ctx) => processBatchesM env cfg rest ctx
      | _ =>
        match acquireKeyM env cfg cfg.maxRetriesPerImage ctx with
        | (.error e, ctx) => (.error e, ctx)
        | (.ok none, ctx) =>
          processBatchesM env cfg rest (emitProgress env (failBatch batch ctx))
        | (.ok (some bestKey), ctx) =>
          match runBatchM env cfg batch bestKey ctx with
          | (.ok _, ctx) => processBatchesM env cfg rest (emitProgress env ctx)
          | (.error e, ctx) =>
            let ctx :=
              if isRateLimitError e then
                let s := sampleNow env ctx
                { s.2 with rl := markExhausted s.2.rl bestKey.id s.1 }
              else ctx
            match fallbackM env cfg batch ctx with
            | (.error e2, ctx) => (.error e2, ctx)
            | (.ok _, ctx) => processBatchesM env cfg rest (emitProgress env ctx)

/-- `processFiles` from `gemini.ts`: throws on an empty credential list,
builds the limiter and pending statuses, plans the batches, and drives the
batch loop; per-item failures land in statuses and the call returns the
accumulated results. -/
def processFilesM (env : OrchEnv) (cfg : GeminiCfg) (apiKeys : List ApiKeyEntry)
    (images : List ImageInput)
    (storedBuckets : String → Option SavedBucket)
    (storedDaily : String → Option DailyUsage) :
    Except Exc (List ExtractedResolution) × Ctx :=
  let rl := mkRateLimiter env.rl apiKeys storedBuckets storedDaily (env.timeAt 0)
  let statuses :=
    images.foldl (fun m img => setKey m img.id FileStatus.pending) (fun _ => none)
  let ctx : Ctx :=
    { rl := rl, results := [], statuses := statuses, processedIds := []
      callCtr := 0, checkCtr := 0, tick := 1 }
  if apiKeys = [] then (.error (.failure "No API keys provided"), ctx)
  else
    match processBatchesM env cfg (createDynamicBatches cfg images) ctx with
    | (.error e, ctx) => (.error e, ctx)
    | (.ok _, ctx) => (.ok ctx.results, ctx)

/-! ## C4: only cancellation escapes the orchestrator -/

/-- The outcome is a normal return or the distinguished abort. -/
def OkOrAborted {α : Type} (r : Except Exc α × Ctx) : Prop :=
  (∃ a, r.1 = Except.ok a) ∨ r.1 = Except.error Exc.aborted

theorem okOr_of_eq_error {α : Type} {r : Except Exc α × Ctx} {e : Exc} {ctx : Ctx}
    (h : OkOrAborted r) (heq : r = (Except.error e, ctx)) : e = Exc.aborted := by
  rcases h with ⟨a, ha⟩ | ha
  · rw [heq] at ha; cases ha
  · rw [heq] at ha
    simpa using ha

theorem acquireKeyM_okOr (env : OrchEnv) (cfg : GeminiCfg) :
    ∀ (fuel : ℕ) (ctx : Ctx), OkOrAborted (acquireKeyM env cfg fuel ctx) := by
  intro fuel
  induction fuel with
  | zero => intro ctx; exact Or.inl ⟨none, rfl⟩
  | succ n ih =>
    intro ctx
    simp only [acquireKeyM]
    split
    · exact Or.inr rfl
    · split
      · exact Or.inl ⟨_, rfl⟩
      · split
        · exact Or.inl ⟨none, rfl⟩
        · exact ih _

theorem pIWRLoop_okOr (env : OrchEnv) (cfg : GeminiCfg) (img : ImageInput) :
    ∀ (fuel : ℕ) (ctx : Ctx), OkOrAborted (pIWRLoop env cfg img fuel ctx) := by
  intro fuel
  induction fuel with
  | zero => intro ctx; exact Or.inl ⟨LoopExit.fuelOut, rfl⟩
  | succ n ih =>
    intro ctx
    simp only [pIWRLoop]
    split
    · exact Or.inr rfl
    · split
      · next e ctx2 heq =>
        have he := okOr_of_eq_error (acquireKeyM_okOr env cfg _ _) heq
        rw [he]
        exact Or.inr rfl
      · exact Or.inl ⟨LoopExit.noKey, rfl⟩
      · split
        · exact Or.inl ⟨LoopExit.success, rfl⟩
        · split
          · exact ih _
          · exact Or.inl ⟨LoopExit.broke, rfl⟩

theorem processImageWithRateLimitM_okOr (env : OrchEnv) (cfg : GeminiCfg)
    (img : ImageInput) (ctx : Ctx) :
    OkOrAborted (processImageWithRateLimitM env cfg img ctx) := by
  simp only [processImageWithRateLimitM]
  split
  · exact Or.inl ⟨(), rfl⟩
  · split
    · next e ctx2 heq =>
      have he := okOr_of_eq_error (pIWRLoop_okOr env cfg img _ _) heq
      rw [he]
      exact Or.inr rfl
    · exact Or.inl ⟨(), rfl⟩
    · exact Or.inl ⟨(), rfl⟩
    · exact Or.inl ⟨(), rfl⟩

theorem reprocessLowM_okOr (env : OrchEnv) (cfg : GeminiCfg) (batch : List ImageInput) :
    ∀ (idxs : List ℤ) (ctx : Ctx), OkOrAborted (reprocessLowM env cfg batch idxs ctx) := by
  intro idxs
  induction idxs with
  | nil => intro ctx; exact Or.inl ⟨(), rfl⟩
  | cons idx rest ih =>
    intro ctx
    simp only [reprocessLowM]
    split
    · exact ih _
    · split
      · exact ih _
      · split
        · next e ctx2 heq =>
          have he := okOr_of_eq_error (processImageWithRateLimitM_okOr env cfg _ _) heq
          rw [he]
          exact Or.inr rfl
        · exact ih _

theorem fallbackM_okOr (env : OrchEnv) (cfg : GeminiCfg) :
    ∀ (batch : List ImageInput) (ctx : Ctx), OkOrAborted (fallbackM env cfg batch ctx) := by
  intro batch
  induction batch with
  | nil => intro ctx; exact Or.inl ⟨(), rfl⟩
  | cons img rest ih =>
    intro ctx
    simp only [fallbackM]
    split
    · exact ih _
    · split
      · next e ctx2 heq =>
        have he := okOr_of_eq_error (processImageWithRateLimitM_okOr env cfg _ _) heq
        rw [he]
        exact Or.inr rfl
      · exact ih _

theorem processBatchesM_okOr (env : OrchEnv) (cfg : GeminiCfg) :
    ∀ (batches : List (List ImageInput)) (ctx : Ctx),
    OkOrAborted (processBatchesM env cfg batches ctx) := by
  intro batches
  induction batches with
  | nil => intro ctx; exact Or.inl ⟨(), rfl⟩
  | cons batch rest ih =>
    intro ctx
    simp only [processBatchesM]
    split
    · exact Or.inr rfl
    · split
      · split
        · next e ctx2 heq =>
          have he := okOr_of_eq_error (processImageWithRateLimitM_okOr env cfg _ _) heq
          rw [he]
          exact Or.inr rfl
        · exact ih _
      · split
        · next e ctx2 heq =>
          have he := okOr_of_eq_error (acquireKeyM_okOr env cfg _ _) heq
          rw [he]
          exact Or.inr rfl
        · exact ih _
        · split
          · exact ih _
          · split
            · next e2 ctx2 heq =>
              have he := okOr_of_eq_error (fallbackM_okOr env cfg _ _) heq
              rw [he]
              exact Or.inr rfl
            · exact ih _

/-- C4 (amended): with at least one credential, `processFiles` never throws:
every run either resolves with the accumulated (possibly partial) result
list — per-item failures having been captured in the statuses — or
propagates the distinguished cancellation outcome.  (With an empty
credential list the call throws `"No API keys provided"`, see the
counterexample.) -/
theorem C4_processFiles_only_cancellation (env : OrchEnv) (cfg : GeminiCfg)
    (apiKeys : List ApiKeyEntry) (images : List ImageInput)
    (storedBuckets : String → Option SavedBucket)
    (storedDaily : String → Option DailyUsage)
    (hkeys : apiKeys ≠ []) :
    (∃ out, (processFilesM env cfg apiKeys images storedBuckets storedDaily).1 =
      Except.ok out) ∨
    (processFilesM env cfg apiKeys images storedBuckets storedDaily).1 =
      Except.error Exc.aborted := by
  simp only [processFilesM]
  rw [if_neg hkeys]
  split
  · next e ctx2 heq =>
    have he := okOr_of_eq_error (processBatchesM_okOr env cfg _ _) heq
    rw [he]
    exact Or.inr rfl
  · exact Or.inl ⟨_, rfl⟩

/-- A concrete orchestrator environment for the C4 witnesses. -/
def orchEnv0 : OrchEnv :=
  { rl := env0
    genSingle := fun _ => Except.error ⟨"boom"⟩
    genBatch := fun _ => Except.error ⟨"boom"⟩
    abortAt := fun _ => false
    timeAt := fun _ => 0 }

/-- C4, counterexample to the claim as stated: with an empty credential
list (a perfectly admissible input) the top-level call throws the ordinary
error `"No API keys provided"`, which is not the cancellation outcome. -/
theorem C4_cex_empty_keys_throws :
    (processFilesM orchEnv0 cfg0 [] [] (fun _ => none) (fun _ => none)).1 =
      Except.error (Exc.failure "No API keys provided") ∧
    Exc.failure "No API keys provided" ≠ Exc.aborted := by
  exact ⟨rfl, by simp⟩

/-- Witness for `C4_processFiles_only_cancellation` at a concrete input
with one key and two documents. -/
theorem C4_processFiles_only_cancellation_witness :
    (∃ out, (processFilesM orchEnv0 cfg0 [key0] imgsPair (fun _ => none)
      (fun _ => none)).1 = Except.ok out) ∨
    (processFilesM orchEnv0 cfg0 [key0] imgsPair (fun _ => none)
      (fun _ => none)).1 = Except.error Exc.aborted :=
  C4_processFiles_only_cancellation orchEnv0 cfg0 [key0] imgsPair
    (fun _ => none) (fun _ => none) (by simp)

end WRP
